import Mathlib

/-!
# fiber-sockets: the two-tier routing hub of `sockets.go`

A shallow embedding of `sockets.go`.  The program is a handful of goroutines
that talk over unbuffered channels:

* one `MainHub.Run` loop (the Registry), owner of `main.Clients`;
* one `ClientHub.Run` loop per `ClientHub` ever created (the Group Actors), each
  the owner of its `Connections`;
* one goroutine per call of the function returned by `broadcast`, blocked on
  `c <- i` until the hub receives it;
* one connection loop per websocket (`NewReader`).

A send on an unbuffered channel completes only together with the matching
receive, so the embedding is a transition system whose transitions are the
channel rendezvous of the source (`#chan1` .. `#chan8`), each one followed by
the body of the `select` case that receives it.  Which enabled rendezvous
happens next is not decided by the program; it is the argument of `step`.
The connection loop is a step machine of its own (`Reader.step`): its sends on
`main.Register`, `main.Request` and `main.Close` are such rendezvous too, and
happen only when the main hub receives them.
-/

set_option linter.dupNamespace false

namespace Sockets

/-! ## Data -/

/-- A Go byte slice. -/
abbrev Bytes := List Nat

/-- A `*websocket.Conn`, identified by its address. -/
abbrev ConnPtr := Nat

/-- A `*ClientHub`, identified by its address: the index in the heap of hubs. -/
abbrev HubPtr := Nat

/-- A Go `interface{}` value, as far as the program can tell values apart: the
nil interface, a `string`, and a few other dynamic types. -/
inductive Value where
  | nil
  | str (s : String)
  | int (n : Int)
  | bool (b : Bool)
  | raw (b : Bytes)
  | strMap (m : List (String × String))
  deriving DecidableEq, Repr

/-- The struct `request`: what a connection loop sends on `main.Request`. -/
structure request where
  ID : String
  Msg : Bytes
  Data : Value
  Conn : ConnPtr
  deriving DecidableEq, Repr

/-- The struct `Request`: what the Handler is given. -/
structure Request where
  ID : String
  Msg : Bytes
  Data : Value
  deriving DecidableEq, Repr

/-- The struct `Conn`: a connection wrapped with its identifier. -/
structure Conn where
  ID : String
  Conn : ConnPtr
  deriving DecidableEq, Repr

/-- What one call of a `Handler` does, seen from the hub: the values it passes
to the broadcast function it was given, in call order, and the error it
returns (`none` for a nil error, `some msg` for an error whose `Error()` is
`msg`). -/
structure Outcome where
  broadcasts : List Value
  err : Option String
  deriving DecidableEq, Repr

/-- The type `Handler`: `func(Request, func(interface{})) error`. -/
abbrev Handler := Request → Outcome

/-- The struct `ClientHub`.  The channels are not fields: they are the
rendezvous of `step`.  `sendingEmpty` is the program counter of the hub's `Run`
loop: `false` at the `select`, `true` while blocked in
`main.Empty <- client.ID`. -/
structure ClientHub where
  ID : String
  Connections : List ConnPtr
  Handler : Handler
  sendingEmpty : Bool

/-- The function `NewClientHub`. -/
def NewClientHub (id : String) (handler : Handler) : ClientHub :=
  { ID := id, Connections := [], Handler := handler, sendingEmpty := false }

/-- The program counter of `MainHub.Run`: at the `select`, or blocked in one of
the three sends to a hub, holding the hub the channel belongs to and the value
being sent. -/
inductive MainPC where
  | select
  | sendRegister (hub : HubPtr) (c : Conn)
  | sendRequest (hub : HubPtr) (r : request)
  | sendClose (hub : HubPtr) (c : Conn)
  deriving DecidableEq, Repr

/-- What the outside world can see a hub do. -/
inductive Obs where
  | call (hub : HubPtr) (r : Request)
  | write (hub : HubPtr) (c : ConnPtr) (v : Value)
  deriving DecidableEq, Repr

/-- The whole system: the `MainHub` (`Clients` and the program counter of its
`Run`), the heap of `ClientHub`s with their `Run` loops, the goroutines
started by `broadcast` that are blocked on `c <- i` (the hub owning `c`, and
`i`), and the log of Handler calls and `WriteJSON` calls so far. -/
structure System where
  Clients : List (String × HubPtr)
  pc : MainPC
  hubs : List ClientHub
  pending : List (HubPtr × Value)
  trace : List Obs

/-- The state after `NewMainHub()` and `go mainHub.Run(handler)`. -/
def NewMainHub : System :=
  { Clients := [], pc := .select, hubs := [], pending := [], trace := [] }

/-! ## The map `main.Clients` and the set `client.Connections` -/

/-- The map read `main.Clients[id]`. -/
def lookup (id : String) : List (String × HubPtr) → Option HubPtr
  | [] => none
  | (k, h) :: rest => if k = id then some h else lookup id rest

/-- The statement `delete(main.Clients, id)`. -/
def remove (id : String) (m : List (String × HubPtr)) : List (String × HubPtr) :=
  m.filter (fun kv => kv.1 ≠ id)

/-- The statement `client.Connections[c] = struct{}{}`. -/
def addConn (c : ConnPtr) (cs : List ConnPtr) : List ConnPtr :=
  if c ∈ cs then cs else cs ++ [c]

/-- The statement `delete(client.Connections, c)`. -/
def delConn (c : ConnPtr) (cs : List ConnPtr) : List ConnPtr :=
  cs.filter (fun x => x ≠ c)

/-! ## The cases of `ClientHub.Run` -/

/-- The value `map[string]string{"error": err.Error()}`. -/
def errorFrame (msg : String) : Value :=
  .strMap [("error", msg)]

/-- Case `broadcast := <-client.Broadcast`: one `WriteJSON` per connection. -/
def ClientHub.onBroadcast (hub : ClientHub) (v : Value) : List (ConnPtr × Value) :=
  hub.Connections.map (fun c => (c, v))

/-- Case `register := <-client.Register`. -/
def ClientHub.onRegister (hub : ClientHub) (register : Conn) : ClientHub :=
  { hub with Connections := addConn register.Conn hub.Connections }

/-- Case `request := <-client.Request`: the Handler is called once; each value
it broadcasts becomes a goroutine blocked on `client.Broadcast`; an error is
written to `request.Conn`.  Returns the values broadcast and the writes. -/
def ClientHub.onRequest (hub : ClientHub) (req : request) :
    Request × List Value × List (ConnPtr × Value) :=
  let arg : Request := { ID := req.ID, Msg := req.Msg, Data := req.Data }
  let out := hub.Handler arg
  match out.err with
  | none => (arg, out.broadcasts, [])
  | some msg => (arg, out.broadcasts, [(req.Conn, errorFrame msg)])

/-- Case `close := <-client.Close`: the connection is deleted and, when none is
left, the hub goes on to `main.Empty <- client.ID`. -/
def ClientHub.onClose (hub : ClientHub) (close : Conn) : ClientHub :=
  let cs := delConn close.Conn hub.Connections
  { hub with Connections := cs, sendingEmpty := decide (cs.length = 0) }

/-- The function `broadcast`: `broadcast(c)(i)` starts a goroutine that sends
`i` on `c` and returns at once.  The goroutine, blocked in `c <- i` until the
hub receives, is the pair of the hub that owns `c` and of `i`. -/
abbrev broadcast (c : HubPtr) (i : Value) : HubPtr × Value :=
  (c, i)

/-! ## The transitions -/

/-- The rendezvous of the program. -/
inductive Action where
  -- chan7: a connection loop's `main.Register <- con` meets the main hub
  | register (c : Conn)
  -- chan6: a connection loop's `main.Request <- request{..}` meets the main hub
  | request (r : request)
  -- chan5: a connection loop's `main.Close <- con` meets the main hub
  | close (c : Conn)
  -- chan1, chan2, chan3: the send the main hub is blocked in meets the `select`
  -- of the hub it is addressed to
  | forward
  -- chan4: the `main.Empty <- client.ID` of hub `h` meets the main hub
  | empty (h : HubPtr)
  -- chan8: the send of the `k`-th blocked broadcast goroutine meets the `select`
  -- of its hub
  | broadcast (k : Nat)
  deriving DecidableEq, Repr

/-- The hub at address `h`, when it is at its `select`. -/
def System.ready (s : System) (h : HubPtr) : Option ClientHub :=
  match s.hubs[h]? with
  | some hub => if hub.sendingEmpty then none else some hub
  | none => none

/-- One transition: `none` when the rendezvous is not enabled in `s`.

* `register`, `request`, `close`: the main hub is at its `select` and receives
  from `main.Register`, `main.Request`, `main.Close`; it runs the body of the
  case up to the send to the hub, in which it blocks (`MainHub.Run`, the first
  three cases).  A request or close for an unmapped identifier is dropped.
* `forward`: the hub addressed is at its `select`, receives what the main hub
  sends and runs the body of its case (`ClientHub.Run`, cases `Register`,
  `Request`, `Close`); the main hub is back at its `select`.
* `empty h`: the main hub is at its `select` and receives from `main.Empty` the
  identifier hub `h` is blocked sending; it deletes the entry (`MainHub.Run`,
  last case) and the hub is back at its `select`.
* `broadcast k`: the hub is at its `select` and receives from
  `client.Broadcast` the value the `k`-th goroutine is blocked sending
  (`ClientHub.Run`, first case). -/
def step (handler : Handler) (a : Action) (s : System) : Option System :=
  match a with
  | .register c =>
    match s.pc with
    | .select =>
      match lookup c.ID s.Clients with
      | some h => some { s with pc := .sendRegister h c }
      | none =>
        some { s with
          Clients := s.Clients ++ [(c.ID, s.hubs.length)]
          hubs := s.hubs ++ [NewClientHub c.ID handler]
          pc := .sendRegister s.hubs.length c }
    | _ => none
  | .request r =>
    match s.pc with
    | .select =>
      match lookup r.ID s.Clients with
      | some h => some { s with pc := .sendRequest h r }
      | none => some s
    | _ => none
  | .close c =>
    match s.pc with
    | .select =>
      match lookup c.ID s.Clients with
      | some h => some { s with pc := .sendClose h c }
      | none => some s
    | _ => none
  | .forward =>
    match s.pc with
    | .select => none
    | .sendRegister h c =>
      match s.ready h with
      | some hub => some { s with pc := .select, hubs := s.hubs.set h (hub.onRegister c) }
      | none => none
    | .sendRequest h r =>
      match s.ready h with
      | some hub =>
        let res := hub.onRequest r
        some { s with
          pc := .select
          pending := s.pending ++ res.2.1.map (broadcast h)
          trace := s.trace ++ Obs.call h res.1 :: res.2.2.map (fun w => Obs.write h w.1 w.2) }
      | none => none
    | .sendClose h c =>
      match s.ready h with
      | some hub => some { s with pc := .select, hubs := s.hubs.set h (hub.onClose c) }
      | none => none
  | .empty h =>
    match s.pc, s.hubs[h]? with
    | .select, some hub =>
      if hub.sendingEmpty then
        some { s with
          Clients := remove hub.ID s.Clients
          hubs := s.hubs.set h { hub with sendingEmpty := false } }
      else none
    | _, _ => none
  | .broadcast k =>
    match s.pending[k]? with
    | some (h, v) =>
      match s.ready h with
      | some hub =>
        some { s with
          pending := s.pending.eraseIdx k
          trace := s.trace ++ (hub.onBroadcast v).map (fun w => Obs.write h w.1 w.2) }
      | none => none
    | none => none

/-- A schedule: the transitions in the order they happen. -/
def run (handler : Handler) : List Action → System → Option System
  | [], s => some s
  | a :: rest, s => (step handler a s).bind (run handler rest)

/-! ## Reading the state and the log -/

/-- The membership set of the group mapped under `id` (empty when unmapped). -/
def System.members (s : System) (id : String) : List ConnPtr :=
  match lookup id s.Clients with
  | some h =>
    match s.hubs[h]? with
    | some hub => hub.Connections
    | none => []
  | none => []

/-- The values written to connection `c`, oldest first. -/
def writesTo (c : ConnPtr) : List Obs → List Value
  | [] => []
  | .call _ _ :: rest => writesTo c rest
  | .write _ c2 v :: rest => if c2 = c then v :: writesTo c rest else writesTo c rest

/-- The Handler calls, oldest first. -/
def calls : List Obs → List Request
  | [] => []
  | .call _ r :: rest => r :: calls rest
  | .write _ _ _ :: rest => calls rest

/-! ## Operations processed to completion -/

/-- What a connection loop hands the main hub: a send on `main.Register`, on
`main.Request` or on `main.Close`. -/
inductive Op where
  | Register (c : Conn)
  | Request (r : request)
  | Close (c : Conn)
  deriving DecidableEq, Repr

/-- The rendezvous in which the main hub receives the operation. -/
def Op.action : Op → Action
  | .Register c => .register c
  | .Request r => .request r
  | .Close c => .close c

/-- The transitions that finish what the main hub has received: the hub
addressed receives what the main hub forwards and, when that was the close of
its last connection, the main hub receives the hub's `main.Empty <- client.ID`. -/
def completion (s : System) : List Action :=
  match s.pc with
  | .select => []
  | .sendRegister _ _ => [.forward]
  | .sendRequest _ _ => [.forward]
  | .sendClose h c =>
    match s.hubs[h]? with
    | some hub => if (hub.onClose c).sendingEmpty then [.forward, .empty h] else [.forward]
    | none => [.forward]

/-- One operation, processed to completion by both loops before anything else
happens. -/
def process (handler : Handler) (op : Op) (s : System) : Option System :=
  (step handler op.action s).bind (fun s1 => run handler (completion s1) s1)

/-- A sequence of operations, each processed to completion in turn. -/
def processAll (handler : Handler) : List Op → System → Option System
  | [], s => some s
  | op :: rest, s => (process handler op s).bind (processAll handler rest)

/-- No operation is in progress: the main hub and every hub are at their
`select`.  Broadcast goroutines may still be blocked. -/
def System.quiescent (s : System) : Bool :=
  decide (s.pc = .select) && s.hubs.all (fun hub => !hub.sendingEmpty)

/-- Whether the last of the registrations and closes of connection `c` under
`id` among `acts` is a registration. -/
def live (id : String) (c : ConnPtr) (acts : List Action) : Bool :=
  acts.foldl (fun b a =>
    match a with
    | .register x => if x = ⟨id, c⟩ then true else b
    | .close x => if x = ⟨id, c⟩ then false else b
    | _ => b) false

/-- The schedule that registers `cs` under `id`, one connection at a time. -/
def registerAll (id : String) : List ConnPtr → List Action
  | [] => []
  | c :: rest => .register ⟨id, c⟩ :: .forward :: registerAll id rest

/-! ## The connection loop of `NewReader` -/

/-- The result of one `c.ReadMessage()`. -/
inductive ReadResult where
  | msg (b : Bytes)
  | err (e : String)
  deriving DecidableEq, Repr

/-- What the connection loop has done to the outside: a send that the main hub
has received, or the release of the connection by `c.Close()`. -/
inductive Effect where
  | sendRegister (c : Conn)
  | sendRequest (r : request)
  | sendClose (c : Conn)
  | release (c : ConnPtr)
  deriving DecidableEq, Repr

/-- The identifier of a connection: its `socketsID` local when that is a
non-empty `string`, `"socketsPublic"` otherwise. -/
def readerID (locals : String → Value) : String :=
  match locals "socketsID" with
  | .str id => if id = "" then "socketsPublic" else id
  | _ => "socketsPublic"

/-- Where the connection loop is. -/
inductive ReaderPC where
  -- blocked in `main.Register <- con`
  | register
  -- in `c.ReadMessage()`
  | read
  -- blocked in `main.Request <- request{id, msg, data, c}`
  | request (msg : Bytes)
  -- left the loop; in the deferred function, blocked in `main.Close <- con`
  | close
  -- in the deferred function, at `c.Close()`
  | release
  -- returned
  | done
  deriving DecidableEq, Repr

/-- One run of the function passed to `websocket.New`: its locals `id`, `data`
and `c`, the results of the reads still to come, where it is, and what it has
done so far, oldest first. -/
structure Reader where
  id : String
  data : Value
  c : ConnPtr
  reads : List ReadResult
  pc : ReaderPC
  log : List Effect
  deriving DecidableEq, Repr

/-- The function passed to `websocket.New` by `NewReader`, started on connection
`c` with the given locals and read results: the identifier and the data are
derived, the deferred function is installed, and the loop is at
`main.Register <- con`. -/
def NewReader (locals : String → Value) (c : ConnPtr) (reads : List ReadResult) : Reader :=
  { id := readerID locals
    data := locals "socketsData"
    c := c
    reads := reads
    pc := .register
    log := [] }

/-- One step of the connection loop next to the state `s` of the hubs; `none`
when the loop cannot move.  A send is a rendezvous with the main hub: it
happens only when the main hub receives it, that is when `step` is enabled; a
read takes the next read result, and an error leaves the `for` loop for the
deferred function, which sends the close and, once that is received, releases
the connection. -/
def Reader.step (handler : Handler) (r : Reader) (s : System) : Option (Reader × System) :=
  match r.pc with
  | .register =>
    match Sockets.step handler (.register { ID := r.id, Conn := r.c }) s with
    | some s' =>
      some ({ r with
        pc := .read
        log := r.log ++ [.sendRegister { ID := r.id, Conn := r.c }] }, s')
    | none => none
  | .read =>
    match r.reads with
    | [] => none
    | .err _ :: rest => some ({ r with reads := rest, pc := .close }, s)
    | .msg m :: rest => some ({ r with reads := rest, pc := .request m }, s)
  | .request m =>
    match Sockets.step handler (.request { ID := r.id, Msg := m, Data := r.data, Conn := r.c }) s with
    | some s' =>
      some ({ r with
        pc := .read
        log := r.log ++ [.sendRequest { ID := r.id, Msg := m, Data := r.data, Conn := r.c }] },
        s')
    | none => none
  | .close =>
    match Sockets.step handler (.close { ID := r.id, Conn := r.c }) s with
    | some s' =>
      some ({ r with
        pc := .release
        log := r.log ++ [.sendClose { ID := r.id, Conn := r.c }] }, s')
    | none => none
  | .release => some ({ r with pc := .done, log := r.log ++ [.release r.c] }, s)
  | .done => none

/-- A move of the connection loop and the hubs together: a step of the loop, or
any other rendezvous of the program. -/
inductive Move where
  | loop
  | other (a : Action)
  deriving DecidableEq, Repr

/-- One move. -/
def move (handler : Handler) (m : Move) (x : Reader × System) : Option (Reader × System) :=
  match m with
  | .loop => x.1.step handler x.2
  | .other a =>
    match step handler a x.2 with
    | some s' => some (x.1, s')
    | none => none

/-- A schedule of the connection loop and the hubs together. -/
def play (handler : Handler) : List Move → Reader × System → Option (Reader × System)
  | [], x => some x
  | m :: rest, x => (move handler m x).bind (play handler rest)

/-- The connection loop of connection 2 under `"u1"` after its registration was
received and its first read failed: it is in the deferred function, blocked
in `main.Close <- con`. -/
def closingReader : Reader :=
  { id := "u1"
    data := .nil
    c := 2
    reads := []
    pc := .close
    log := [.sendRegister { ID := "u1", Conn := 2 }] }

/-- The locals of a connection whose `socketsID` is `v` and whose `socketsData`
is `d`; every other key is missing. -/
def localsOf (v d : Value) : String → Value := fun k =>
  if k = "socketsID" then v else if k = "socketsData" then d else .nil

/-! ## Handlers used in the concrete scenarios -/

/-- The bytes of a text. -/
def bytesOf (t : String) : Bytes :=
  t.toList.map Char.toNat

/-- A Handler that echoes the message with the group identifier added as the
member `"id"` of the JSON object, and broadcasts the result. -/
def echoWithID : Handler := fun r =>
  { broadcasts := [.raw (r.Msg.dropLast ++ bytesOf (",\"id\":\"" ++ r.ID ++ "\"\x7d"))], err := none }

/-- A Handler that broadcasts two values, `"first"` and then `"second"`. -/
def twoBroadcasts : Handler := fun _ =>
  { broadcasts := [.str "first", .str "second"], err := none }

/-- A Handler that broadcasts a value and then fails. -/
def broadcastThenFail : Handler := fun _ =>
  { broadcasts := [.str "partial"], err := some "boom" }

/-- The state with one group `"u2"` of one connection, for the Handler
`echoWithID`: what registering connection 1 under `"u2"` leaves. -/
def oneGroup : System :=
  { Clients := [("u2", 0)]
    pc := .select
    hubs := [{ ID := "u2", Connections := [1], Handler := echoWithID, sendingEmpty := false }]
    pending := []
    trace := [] }

/-- The state with the group `"u1"` of connections 1 and 2, for the Handler
`broadcastThenFail`: what registering 1 and 2 under `"u1"` leaves. -/
def failingPair : System :=
  { Clients := [("u1", 0)]
    pc := .select
    hubs := [{ ID := "u1", Connections := [1, 2], Handler := broadcastThenFail,
               sendingEmpty := false }]
    pending := []
    trace := [] }

/-- The state after connection 1, the only one of `"u1"`, has closed and the
hub has handled the close: the main hub is at its `select`, `"u1"` is still
mapped, and the hub is blocked in `main.Empty <- client.ID`. -/
def emptying (handler : Handler) : System :=
  { Clients := [("u1", 0)]
    pc := .select
    hubs := [{ ID := "u1", Connections := [], Handler := handler, sendingEmpty := true }]
    pending := []
    trace := [] }

/-- The state `emptying` after the main hub has received the registration of
connection 2 under `"u1"`: it is blocked in the send on the `Register` channel
of the hub, which is blocked in `main.Empty <- client.ID`. -/
def deadlocked (handler : Handler) : System :=
  { emptying handler with pc := .sendRegister 0 { ID := "u1", Conn := 2 } }

/-- The state that the request of connection 1 leaves when the Handler is
`twoBroadcasts` and the group `"u1"` has connections 1 and 2: two broadcast
goroutines are blocked, the one of `"first"` started before the one of
`"second"`. -/
def twoPending : System :=
  { Clients := [("u1", 0)]
    pc := .select
    hubs := [{ ID := "u1", Connections := [1, 2], Handler := twoBroadcasts,
               sendingEmpty := false }]
    pending := [(0, .str "first"), (0, .str "second")]
    trace := [.call 0 { ID := "u1", Msg := [], Data := .nil }] }

/-- The writes of one fan-out by hub `h`: the value `v` to each connection. -/
def fanOut (h : HubPtr) (cs : List ConnPtr) (v : Value) : List Obs :=
  cs.map (fun c => Obs.write h c v)

/-- The state with the single group `id`, whose hub has connections `cs` and
is at its `select`, with blocked broadcasts of the values `vals` (oldest
first) and log `t`. -/
def groupState (handler : Handler) (id : String) (cs : List ConnPtr) (vals : List Value)
    (t : List Obs) : System :=
  { Clients := [(id, 0)]
    pc := .select
    hubs := [{ ID := id, Connections := cs, Handler := handler, sendingEmpty := false }]
    pending := vals.map (fun v => (0, v))
    trace := t }

/-- The write of the error frame, when the Handler returned an error. -/
def errorWrites (h : HubPtr) (c : ConnPtr) : Option String → List Obs
  | none => []
  | some msg => [Obs.write h c (errorFrame msg)]

/-- The state with two groups, `"u1"` of connection 1 and `"u2"` of connection
2, after a message under `"u1"` was handled by the Handler `twoBroadcasts`. -/
def twoGroups : System :=
  { Clients := [("u1", 0), ("u2", 1)]
    pc := .select
    hubs := [{ ID := "u1", Connections := [1], Handler := twoBroadcasts, sendingEmpty := false },
             { ID := "u2", Connections := [2], Handler := twoBroadcasts, sendingEmpty := false }]
    pending := [(0, .str "first"), (0, .str "second")]
    trace := [.call 0 { ID := "u1", Msg := [], Data := .nil }] }

/-! ## The invariant of the reachable states -/

/-- What holds of every state `s` reached by the schedule `acts`. -/
structure Inv (handler : Handler) (acts : List Action) (s : System) : Prop where
  /-- An identifier is mapped to a hub that exists and carries that identifier. -/
  mapped : ∀ id h, lookup id s.Clients = some h →
    ∃ hub, s.hubs[h]? = some hub ∧ hub.ID = id
  /-- The main hub sends a registration to the hub mapped under its identifier. -/
  pcReg : ∀ h c, s.pc = .sendRegister h c →
    lookup c.ID s.Clients = some h ∧ live c.ID c.Conn acts = true
  /-- The main hub sends a request to the hub mapped under its identifier. -/
  pcReq : ∀ h r, s.pc = .sendRequest h r → lookup r.ID s.Clients = some h
  /-- The main hub sends a close to the hub mapped under its identifier. -/
  pcClose : ∀ h c, s.pc = .sendClose h c → lookup c.ID s.Clients = some h
  /-- A hub that is no longer mapped has no connection and sits at its select. -/
  stale : ∀ (h : HubPtr) (hub : ClientHub), s.hubs[h]? = some hub → lookup hub.ID s.Clients ≠ some h →
    hub.Connections = [] ∧ hub.sendingEmpty = false
  /-- A hub blocked on the empty signal has no connection. -/
  blocked : ∀ (h : HubPtr) (hub : ClientHub), s.hubs[h]? = some hub → hub.sendingEmpty = true →
    hub.Connections = []
  /-- Every hub is bound to the configured Handler. -/
  bound : ∀ (h : HubPtr) (hub : ClientHub), s.hubs[h]? = some hub → hub.Handler = handler
  /-- A member was registered under the identifier of its hub and not closed
  since, unless its close is the one being forwarded. -/
  member : ∀ (h : HubPtr) (hub : ClientHub) (c : ConnPtr), s.hubs[h]? = some hub → c ∈ hub.Connections →
    live hub.ID c acts = true ∨ s.pc = .sendClose h ⟨hub.ID, c⟩
  /-- A mapped hub without connection is blocked on the empty signal or about
  to receive its first registration. -/
  nonempty : ∀ (h : HubPtr) (hub : ClientHub), s.hubs[h]? = some hub → lookup hub.ID s.Clients = some h →
    hub.Connections = [] → hub.sendingEmpty = true ∨ ∃ c, s.pc = .sendRegister h c
  /-- A Handler call was made by a hub carrying the identifier of the request. -/
  callID : ∀ h r, Obs.call h r ∈ s.trace → ∃ hub, s.hubs[h]? = some hub ∧ hub.ID = r.ID
  /-- A blocked broadcast goroutine was started by a Handler call of its hub. -/
  prov : ∀ h v, (h, v) ∈ s.pending →
    ∃ r, Obs.call h r ∈ s.trace ∧ v ∈ (handler r).broadcasts

end Sockets

namespace Sockets

/-! ## Lists, the map and the schedule -/

theorem run_append (handler : Handler) (as bs : List Action) (s : System) :
    run handler (as ++ bs) s = (run handler as s).bind (run handler bs) := by
  induction as generalizing s with
  | nil => simp [run]
  | cons a rest ih =>
    simp only [List.cons_append, run]
    cases step handler a s with
    | none => simp
    | some s1 => simpa using ih s1

theorem run_snoc (handler : Handler) (as : List Action) (a : Action) (s : System) :
    run handler (as ++ [a]) s = (run handler as s).bind (step handler a) := by
  rw [run_append]
  congr 1
  funext t
  simp [run]

theorem lookup_append (id k : String) (h : HubPtr) (m : List (String × HubPtr)) :
    lookup id (m ++ [(k, h)]) =
      match lookup id m with
      | some x => some x
      | none => if k = id then some h else none := by
  induction m with
  | nil => simp [lookup]
  | cons kv rest ih =>
    obtain ⟨k2, h2⟩ := kv
    simp only [List.cons_append, lookup]
    by_cases hk : k2 = id
    · simp [hk]
    · simp [hk, ih]

theorem lookup_remove_self (id : String) (m : List (String × HubPtr)) :
    lookup id (remove id m) = none := by
  induction m with
  | nil => simp [remove, lookup]
  | cons kv rest ih =>
    obtain ⟨k2, h2⟩ := kv
    by_cases hk : k2 = id
    · simpa [remove, hk] using ih
    · simpa [remove, hk, lookup] using ih

theorem lookup_remove_ne (id k : String) (hne : k ≠ id) (m : List (String × HubPtr)) :
    lookup k (remove id m) = lookup k m := by
  induction m with
  | nil => simp [remove, lookup]
  | cons kv rest ih =>
    obtain ⟨k2, h2⟩ := kv
    unfold remove at ih ⊢
    by_cases hk : k2 = id
    · have hk2 : k2 ≠ k := by
        intro h
        exact hne (h ▸ hk)
      rw [List.filter_cons_of_neg (by simpa using hk)]
      simp only [lookup, hk2, if_false]
      exact ih
    · rw [List.filter_cons_of_pos (by simpa using hk)]
      by_cases hkk : k2 = k
      · simp [lookup, hkk]
      · simp only [lookup, hkk, if_false]
        exact ih

theorem get_set (l : List ClientHub) (h k : HubPtr) (x hub : ClientHub)
    (hh : l[h]? = some hub) :
    (l.set h x)[k]? = if k = h then some x else l[k]? := by
  have hlt : h < l.length := by
    rcases List.getElem?_eq_some.mp hh with ⟨hl, _⟩
    exact hl
  by_cases hk : k = h
  · subst hk
    simp [List.getElem?_set_self hlt]
  · have : h ≠ k := fun e => hk e.symm
    simp [hk, List.getElem?_set_ne this]

theorem get_snoc (l : List ClientHub) (k : HubPtr) (x : ClientHub) :
    (l ++ [x])[k]? = if k = l.length then some x else l[k]? := by
  by_cases hk : k = l.length
  · subst hk
    simp
  · simp only [hk, if_false]
    rcases Nat.lt_or_gt_of_ne hk with hlt | hgt
    · exact List.getElem?_append_left hlt
    · have h1 : (l ++ [x])[k]? = none := by
        apply List.getElem?_eq_none
        simp
        omega
      have h2 : l[k]? = none := by
        apply List.getElem?_eq_none
        omega
      rw [h1, h2]

theorem live_snoc (id : String) (c : ConnPtr) (acts : List Action) (a : Action) :
    live id c (acts ++ [a]) =
      match a with
      | .register x => if x = ⟨id, c⟩ then true else live id c acts
      | .close x => if x = ⟨id, c⟩ then false else live id c acts
      | _ => live id c acts := by
  unfold live
  rw [List.foldl_append]
  cases a <;> rfl

theorem get_snoc_of_some (l : List ClientHub) (k : HubPtr) (x hub : ClientHub)
    (hk : l[k]? = some hub) : (l ++ [x])[k]? = some hub := by
  rcases List.getElem?_eq_some.mp hk with ⟨hl, _⟩
  rw [get_snoc, if_neg (Nat.ne_of_lt hl)]
  exact hk

theorem live_register_mono (id : String) (c : ConnPtr) (acts : List Action) (x : Conn)
    (hl : live id c acts = true) : live id c (acts ++ [.register x]) = true := by
  rw [live_snoc]
  simp only
  split <;> simp [hl]

/-! ## The invariant is kept by every transition -/

theorem inv_init (handler : Handler) : Inv handler [] NewMainHub where
  mapped := by intro id h hl; simp [NewMainHub, lookup] at hl
  pcReg := by intro h c hp; simp [NewMainHub] at hp
  pcReq := by intro h c hp; simp [NewMainHub] at hp
  pcClose := by intro h c hp; simp [NewMainHub] at hp
  stale := by intro h hub hh; simp [NewMainHub] at hh
  blocked := by intro h hub hh; simp [NewMainHub] at hh
  bound := by intro h hub hh; simp [NewMainHub] at hh
  member := by intro h hub c hh; simp [NewMainHub] at hh
  nonempty := by intro h hub hh; simp [NewMainHub] at hh
  callID := by intro h r hm; simp [NewMainHub] at hm
  prov := by intro h v hm; simp [NewMainHub] at hm

theorem inv_register (handler : Handler) (acts : List Action) (s s' : System) (c : Conn)
    (hi : Inv handler acts s) (hs : step handler (.register c) s = some s') :
    Inv handler (acts ++ [.register c]) s' := by
  unfold step at hs
  simp only at hs
  cases hpc : s.pc <;> rw [hpc] at hs <;> simp only at hs
  case sendRegister => exact absurd hs (by simp)
  case sendRequest => exact absurd hs (by simp)
  case sendClose => exact absurd hs (by simp)
  cases hl : lookup c.ID s.Clients <;> rw [hl] at hs <;> simp only [Option.some.injEq] at hs <;>
    subst hs
  · -- a hub is created
    exact {
      mapped := by
        intro id h hlk
        simp only at hlk ⊢
        rw [lookup_append] at hlk
        cases hold : lookup id s.Clients with
        | some x =>
          rw [hold] at hlk
          simp only [Option.some.injEq] at hlk
          subst hlk
          obtain ⟨hub, hh, hid⟩ := hi.mapped id x hold
          exact ⟨hub, get_snoc_of_some _ _ _ _ hh, hid⟩
        | none =>
          rw [hold] at hlk
          simp only at hlk
          split at hlk
          · rename_i hcid
            simp only [Option.some.injEq] at hlk
            subst hlk
            exact ⟨NewClientHub c.ID handler, by simp, by simpa [NewClientHub] using hcid⟩
          · exact absurd hlk (by simp)
      pcReg := by
        intro h c2 hp
        simp only [MainPC.sendRegister.injEq] at hp
        obtain ⟨h1, h2⟩ := hp
        subst h1 h2
        refine ⟨?_, ?_⟩
        · simp only
          rw [lookup_append, hl]
          simp
        · rw [live_snoc]
          simp
      pcReq := by intro h r hp; simp at hp
      pcClose := by intro h r hp; simp at hp
      stale := by
        intro h hub hh hne
        simp only at hh hne
        rw [get_snoc] at hh
        split at hh
        · simp only [Option.some.injEq] at hh
          subst hh
          simp [NewClientHub]
        · apply hi.stale h hub hh
          intro hold
          apply hne
          rw [lookup_append, hold]
      blocked := by
        intro h hub hh hb
        simp only at hh
        rw [get_snoc] at hh
        split at hh
        · simp only [Option.some.injEq] at hh
          subst hh
          simp [NewClientHub] at hb
        · exact hi.blocked h hub hh hb
      bound := by
        intro h hub hh
        simp only at hh
        rw [get_snoc] at hh
        split at hh
        · simp only [Option.some.injEq] at hh
          subst hh
          simp [NewClientHub]
        · exact hi.bound h hub hh
      member := by
        intro h hub c2 hh hm
        simp only at hh
        rw [get_snoc] at hh
        split at hh
        · simp only [Option.some.injEq] at hh
          subst hh
          simp [NewClientHub] at hm
        · rcases hi.member h hub c2 hh hm with hlv | hp
          · exact Or.inl (live_register_mono _ _ _ _ hlv)
          · rw [hpc] at hp
            exact absurd hp (by simp)
      nonempty := by
        intro h hub hh hlk he
        simp only at hh hlk ⊢
        rw [get_snoc] at hh
        split at hh
        · rename_i hn
          subst hn
          exact Or.inr ⟨c, rfl⟩
        · rename_i hn
          rw [lookup_append] at hlk
          cases hold : lookup hub.ID s.Clients with
          | some x =>
            rw [hold] at hlk
            simp only [Option.some.injEq] at hlk
            subst hlk
            rcases hi.nonempty x hub hh hold he with hb | ⟨c3, hp⟩
            · exact Or.inl hb
            · rw [hpc] at hp
              exact absurd hp (by simp)
          | none =>
            rw [hold] at hlk
            simp only at hlk
            split at hlk
            · simp only [Option.some.injEq] at hlk
              exact absurd hlk.symm hn
            · exact absurd hlk (by simp)
      callID := by
        intro h r hm
        obtain ⟨hub, hh, hid⟩ := hi.callID h r hm
        exact ⟨hub, get_snoc_of_some _ _ _ _ hh, hid⟩
      prov := hi.prov }
  · -- the identifier is mapped already
    rename_i h0
    exact {
      mapped := hi.mapped
      pcReg := by
        intro h c2 hp
        simp only [MainPC.sendRegister.injEq] at hp
        obtain ⟨h1, h2⟩ := hp
        subst h1 h2
        refine ⟨hl, ?_⟩
        rw [live_snoc]
        simp
      pcReq := by intro h r hp; simp at hp
      pcClose := by intro h r hp; simp at hp
      stale := hi.stale
      blocked := hi.blocked
      bound := hi.bound
      member := by
        intro h hub c2 hh hm
        rcases hi.member h hub c2 hh hm with hlv | hp
        · exact Or.inl (live_register_mono _ _ _ _ hlv)
        · rw [hpc] at hp
          exact absurd hp (by simp)
      nonempty := by
        intro h hub hh hlk he
        rcases hi.nonempty h hub hh hlk he with hb | ⟨c3, hp⟩
        · exact Or.inl hb
        · rw [hpc] at hp
          exact absurd hp (by simp)
      callID := hi.callID
      prov := hi.prov }

theorem mapped_of_member (handler : Handler) (acts : List Action) (s : System)
    (hi : Inv handler acts s) (h : HubPtr) (hub : ClientHub) (c : ConnPtr)
    (hh : s.hubs[h]? = some hub) (hm : c ∈ hub.Connections) :
    lookup hub.ID s.Clients = some h := by
  by_contra hne
  have := (hi.stale h hub hh hne).1
  rw [this] at hm
  exact absurd hm (by simp)

theorem mapped_of_blocked (handler : Handler) (acts : List Action) (s : System)
    (hi : Inv handler acts s) (h : HubPtr) (hub : ClientHub)
    (hh : s.hubs[h]? = some hub) (hb : hub.sendingEmpty = true) :
    lookup hub.ID s.Clients = some h := by
  by_contra hne
  have := (hi.stale h hub hh hne).2
  rw [this] at hb
  exact absurd hb (by simp)

theorem inv_request (handler : Handler) (acts : List Action) (s s' : System) (r : request)
    (hi : Inv handler acts s) (hs : step handler (.request r) s = some s') :
    Inv handler (acts ++ [.request r]) s' := by
  unfold step at hs
  simp only at hs
  cases hpc : s.pc <;> rw [hpc] at hs <;> simp only at hs
  case sendRegister => exact absurd hs (by simp)
  case sendRequest => exact absurd hs (by simp)
  case sendClose => exact absurd hs (by simp)
  have hlive : ∀ id c, live id c (acts ++ [.request r]) = live id c acts := by
    intro id c
    rw [live_snoc]
  cases hl : lookup r.ID s.Clients <;> rw [hl] at hs <;> simp only [Option.some.injEq] at hs <;>
    subst hs
  · exact {
      mapped := hi.mapped
      pcReg := by intro h c hp; rw [hpc] at hp; exact absurd hp (by simp)
      pcReq := hi.pcReq
      pcClose := hi.pcClose
      stale := hi.stale
      blocked := hi.blocked
      bound := hi.bound
      member := by
        intro h hub c2 hh hm
        rw [hlive]
        exact hi.member h hub c2 hh hm
      nonempty := hi.nonempty
      callID := hi.callID
      prov := hi.prov }
  · rename_i h0
    exact {
      mapped := hi.mapped
      pcReg := by intro h c hp; simp at hp
      pcReq := by
        intro h r2 hp
        simp only [MainPC.sendRequest.injEq] at hp
        obtain ⟨h1, h2⟩ := hp
        subst h1 h2
        exact hl
      pcClose := by intro h c hp; simp at hp
      stale := hi.stale
      blocked := hi.blocked
      bound := hi.bound
      member := by
        intro h hub c2 hh hm
        rw [hlive]
        rcases hi.member h hub c2 hh hm with hlv | hp
        · exact Or.inl hlv
        · rw [hpc] at hp
          exact absurd hp (by simp)
      nonempty := by
        intro h hub hh hlk he
        rcases hi.nonempty h hub hh hlk he with hb | ⟨c3, hp⟩
        · exact Or.inl hb
        · rw [hpc] at hp
          exact absurd hp (by simp)
      callID := hi.callID
      prov := hi.prov }

theorem inv_close (handler : Handler) (acts : List Action) (s s' : System) (c : Conn)
    (hi : Inv handler acts s) (hs : step handler (.close c) s = some s') :
    Inv handler (acts ++ [.close c]) s' := by
  unfold step at hs
  simp only at hs
  cases hpc : s.pc <;> rw [hpc] at hs <;> simp only at hs
  case sendRegister => exact absurd hs (by simp)
  case sendRequest => exact absurd hs (by simp)
  case sendClose => exact absurd hs (by simp)
  cases hl : lookup c.ID s.Clients <;> rw [hl] at hs <;> simp only [Option.some.injEq] at hs <;>
    subst hs
  · exact {
      mapped := hi.mapped
      pcReg := by intro h c hp; rw [hpc] at hp; exact absurd hp (by simp)
      pcReq := hi.pcReq
      pcClose := hi.pcClose
      stale := hi.stale
      blocked := hi.blocked
      bound := hi.bound
      member := by
        intro h hub c2 hh hm
        rw [live_snoc]
        simp only
        rcases hi.member h hub c2 hh hm with hlv | hp
        · by_cases hc : c = ⟨hub.ID, c2⟩
          · have hmp := mapped_of_member handler acts s hi h hub c2 hh hm
            rw [hc] at hl
            simp only at hl
            rw [hl] at hmp
            exact absurd hmp (by simp)
          · rw [if_neg hc]
            exact Or.inl hlv
        · rw [hpc] at hp
          exact absurd hp (by simp)
      nonempty := hi.nonempty
      callID := hi.callID
      prov := hi.prov }
  · rename_i h0
    exact {
      mapped := hi.mapped
      pcReg := by intro h c hp; simp at hp
      pcReq := by intro h c hp; simp at hp
      pcClose := by
        intro h c2 hp
        simp only [MainPC.sendClose.injEq] at hp
        obtain ⟨h1, h2⟩ := hp
        subst h1 h2
        exact hl
      stale := hi.stale
      blocked := hi.blocked
      bound := hi.bound
      member := by
        intro h hub c2 hh hm
        rw [live_snoc]
        simp only
        rcases hi.member h hub c2 hh hm with hlv | hp
        · by_cases hc : c = ⟨hub.ID, c2⟩
          · have hmp := mapped_of_member handler acts s hi h hub c2 hh hm
            right
            have hcid : c.ID = hub.ID := by rw [hc]
            rw [hcid, hmp] at hl
            simp only [Option.some.injEq] at hl
            rw [hl, hc]
          · rw [if_neg hc]
            exact Or.inl hlv
        · rw [hpc] at hp
          exact absurd hp (by simp)
      nonempty := by
        intro h hub hh hlk he
        rcases hi.nonempty h hub hh hlk he with hb | ⟨c3, hp⟩
        · exact Or.inl hb
        · rw [hpc] at hp
          exact absurd hp (by simp)
      callID := hi.callID
      prov := hi.prov }

theorem ready_some (s : System) (h : HubPtr) (hub : ClientHub) :
    s.ready h = some hub ↔ s.hubs[h]? = some hub ∧ hub.sendingEmpty = false := by
  unfold System.ready
  cases hh : s.hubs[h]? with
  | none => simp
  | some x =>
    simp only
    cases hb : x.sendingEmpty with
    | true =>
      simp only [if_true]
      constructor
      · intro hx
        exact absurd hx (by simp)
      · rintro ⟨h1, h2⟩
        simp only [Option.some.injEq] at h1
        subst h1
        rw [hb] at h2
        exact absurd h2 (by simp)
    | false =>
      constructor
      · intro hx
        simp only [Bool.false_eq_true, if_false, Option.some.injEq] at hx
        subst hx
        exact ⟨rfl, hb⟩
      · rintro ⟨h1, _⟩
        simp only [Option.some.injEq] at h1
        subst h1
        simp

theorem onRequest_fst (hub : ClientHub) (r : request) :
    (hub.onRequest r).1 = { ID := r.ID, Msg := r.Msg, Data := r.Data } := by
  unfold ClientHub.onRequest
  simp only
  split <;> rfl

theorem onRequest_broadcasts (hub : ClientHub) (r : request) :
    (hub.onRequest r).2.1 =
      (hub.Handler { ID := r.ID, Msg := r.Msg, Data := r.Data }).broadcasts := by
  unfold ClientHub.onRequest
  simp only
  split <;> rfl

theorem onRequest_writes (hub : ClientHub) (r : request) :
    (hub.onRequest r).2.2 =
      match (hub.Handler { ID := r.ID, Msg := r.Msg, Data := r.Data }).err with
      | none => []
      | some msg => [(r.Conn, errorFrame msg)] := by
  unfold ClientHub.onRequest
  simp only
  split <;> rename_i he <;> simp [he]

theorem mem_addConn (c x : ConnPtr) (cs : List ConnPtr) :
    x ∈ addConn c cs ↔ x = c ∨ x ∈ cs := by
  unfold addConn
  by_cases hc : c ∈ cs
  · simp only [hc, if_true]
    constructor
    · exact Or.inr
    · rintro (h | h)
      · exact h ▸ hc
      · exact h
  · simp only [hc, if_false, List.mem_append, List.mem_singleton]
    tauto

theorem addConn_ne_nil (c : ConnPtr) (cs : List ConnPtr) : addConn c cs ≠ [] := by
  intro h
  have : c ∈ addConn c cs := (mem_addConn c c cs).mpr (Or.inl rfl)
  rw [h] at this
  exact absurd this (by simp)

theorem mem_delConn (c x : ConnPtr) (cs : List ConnPtr) :
    x ∈ delConn c cs ↔ x ∈ cs ∧ x ≠ c := by
  unfold delConn
  simp

theorem step_forward_cases (handler : Handler) (s s' : System)
    (hs : step handler .forward s = some s') :
    (∃ h c hub, s.pc = .sendRegister h c ∧ s.ready h = some hub ∧
      s' = { s with pc := .select, hubs := s.hubs.set h (hub.onRegister c) }) ∨
    (∃ h r hub, s.pc = .sendRequest h r ∧ s.ready h = some hub ∧
      s' = { s with
        pc := .select
        pending := s.pending ++ (hub.onRequest r).2.1.map (fun v => (h, v))
        trace := s.trace ++ Obs.call h (hub.onRequest r).1 ::
          (hub.onRequest r).2.2.map (fun w => Obs.write h w.1 w.2) }) ∨
    (∃ h c hub, s.pc = .sendClose h c ∧ s.ready h = some hub ∧
      s' = { s with pc := .select, hubs := s.hubs.set h (hub.onClose c) }) := by
  unfold step at hs
  simp only at hs
  cases hpc : s.pc with
  | select =>
    rw [hpc] at hs
    exact absurd hs (by simp)
  | sendRegister h c =>
    rw [hpc] at hs
    simp only at hs
    cases hr : s.ready h with
    | none =>
      rw [hr] at hs
      exact absurd hs (by simp)
    | some hub =>
      rw [hr] at hs
      simp only [Option.some.injEq] at hs
      exact Or.inl ⟨h, c, hub, rfl, hr, hs.symm⟩
  | sendRequest h r =>
    rw [hpc] at hs
    simp only at hs
    cases hr : s.ready h with
    | none =>
      rw [hr] at hs
      exact absurd hs (by simp)
    | some hub =>
      rw [hr] at hs
      simp only [Option.some.injEq] at hs
      exact Or.inr (Or.inl ⟨h, r, hub, rfl, hr, hs.symm⟩)
  | sendClose h c =>
    rw [hpc] at hs
    simp only at hs
    cases hr : s.ready h with
    | none =>
      rw [hr] at hs
      exact absurd hs (by simp)
    | some hub =>
      rw [hr] at hs
      simp only [Option.some.injEq] at hs
      exact Or.inr (Or.inr ⟨h, c, hub, rfl, hr, hs.symm⟩)

theorem live_forward (id : String) (c : ConnPtr) (acts : List Action) :
    live id c (acts ++ [.forward]) = live id c acts := by
  rw [live_snoc]

theorem inv_forward_register (handler : Handler) (acts : List Action) (s : System)
    (h : HubPtr) (c : Conn) (hub : ClientHub) (hi : Inv handler acts s)
    (hpc : s.pc = .sendRegister h c) (hr : s.ready h = some hub) :
    Inv handler (acts ++ [.forward])
      { s with pc := .select, hubs := s.hubs.set h (hub.onRegister c) } := by
  obtain ⟨hh, hb⟩ := (ready_some s h hub).mp hr
  obtain ⟨hlk, hlv⟩ := hi.pcReg h c hpc
  have hid : hub.ID = c.ID := by
    obtain ⟨hub2, hh2, hid2⟩ := hi.mapped c.ID h hlk
    rw [hh] at hh2
    simp only [Option.some.injEq] at hh2
    rw [hh2]
    exact hid2
  exact {
    mapped := by
      intro id h2 hl2
      simp only at hl2 ⊢
      obtain ⟨hub2, hh2, hid2⟩ := hi.mapped id h2 hl2
      rw [get_set _ _ _ _ _ hh]
      by_cases he : h2 = h
      · subst he
        rw [hh] at hh2
        simp only [Option.some.injEq] at hh2
        subst hh2
        exact ⟨hub.onRegister c, by simp, hid2⟩
      · exact ⟨hub2, by simp [he, hh2], hid2⟩
    pcReg := by intro h2 c2 hp; simp at hp
    pcReq := by intro h2 c2 hp; simp at hp
    pcClose := by intro h2 c2 hp; simp at hp
    stale := by
      intro h2 hub2 hh2 hne
      simp only at hh2 hne
      rw [get_set _ _ _ _ _ hh] at hh2
      by_cases he : h2 = h
      · subst he
        simp only [if_true, Option.some.injEq] at hh2
        subst hh2
        exfalso
        apply hne
        show lookup hub.ID s.Clients = some h2
        rw [hid]
        exact hlk
      · simp only [he, if_false] at hh2
        exact hi.stale h2 hub2 hh2 hne
    blocked := by
      intro h2 hub2 hh2 hb2
      simp only at hh2
      rw [get_set _ _ _ _ _ hh] at hh2
      by_cases he : h2 = h
      · subst he
        simp only [if_true, Option.some.injEq] at hh2
        subst hh2
        have : hub.sendingEmpty = true := hb2
        rw [hb] at this
        exact absurd this (by simp)
      · simp only [he, if_false] at hh2
        exact hi.blocked h2 hub2 hh2 hb2
    bound := by
      intro h2 hub2 hh2
      simp only at hh2
      rw [get_set _ _ _ _ _ hh] at hh2
      by_cases he : h2 = h
      · subst he
        simp only [if_true, Option.some.injEq] at hh2
        subst hh2
        exact hi.bound h2 hub hh
      · simp only [he, if_false] at hh2
        exact hi.bound h2 hub2 hh2
    member := by
      intro h2 hub2 c2 hh2 hm
      simp only at hh2
      rw [live_forward]
      left
      rw [get_set _ _ _ _ _ hh] at hh2
      by_cases he : h2 = h
      · subst he
        simp only [if_true, Option.some.injEq] at hh2
        subst hh2
        have hm2 : c2 ∈ addConn c.Conn hub.Connections := hm
        show live hub.ID c2 acts = true
        rcases (mem_addConn _ _ _).mp hm2 with hc | hc
        · rw [hc, hid]
          exact hlv
        · rcases hi.member h2 hub c2 hh hc with hl | hp
          · exact hl
          · rw [hpc] at hp
            exact absurd hp (by simp)
      · simp only [he, if_false] at hh2
        rcases hi.member h2 hub2 c2 hh2 hm with hl | hp
        · exact hl
        · rw [hpc] at hp
          exact absurd hp (by simp)
    nonempty := by
      intro h2 hub2 hh2 hl2 hem
      simp only at hh2 hl2
      left
      rw [get_set _ _ _ _ _ hh] at hh2
      by_cases he : h2 = h
      · subst he
        simp only [if_true, Option.some.injEq] at hh2
        subst hh2
        exact absurd hem (addConn_ne_nil _ _)
      · simp only [he, if_false] at hh2
        rcases hi.nonempty h2 hub2 hh2 hl2 hem with hb2 | ⟨c3, hp⟩
        · exact hb2
        · rw [hpc] at hp
          simp only [MainPC.sendRegister.injEq] at hp
          exact absurd hp.1.symm he
    callID := by
      intro h2 r hm
      obtain ⟨hub2, hh2, hid2⟩ := hi.callID h2 r hm
      simp only
      rw [get_set _ _ _ _ _ hh]
      by_cases he : h2 = h
      · subst he
        rw [hh] at hh2
        simp only [Option.some.injEq] at hh2
        subst hh2
        exact ⟨hub.onRegister c, by simp, hid2⟩
      · exact ⟨hub2, by simp [he, hh2], hid2⟩
    prov := hi.prov }

theorem inv_forward_request (handler : Handler) (acts : List Action) (s : System)
    (h : HubPtr) (r : request) (hub : ClientHub) (hi : Inv handler acts s)
    (hpc : s.pc = .sendRequest h r) (hr : s.ready h = some hub) :
    Inv handler (acts ++ [.forward])
      { s with
        pc := .select
        pending := s.pending ++ (hub.onRequest r).2.1.map (fun v => (h, v))
        trace := s.trace ++ Obs.call h (hub.onRequest r).1 ::
          (hub.onRequest r).2.2.map (fun w => Obs.write h w.1 w.2) } := by
  obtain ⟨hh, hb⟩ := (ready_some s h hub).mp hr
  have hlk := hi.pcReq h r hpc
  have hid : hub.ID = r.ID := by
    obtain ⟨hub2, hh2, hid2⟩ := hi.mapped r.ID h hlk
    rw [hh] at hh2
    simp only [Option.some.injEq] at hh2
    rw [hh2]
    exact hid2
  exact {
    mapped := hi.mapped
    pcReg := by intro h2 c2 hp; simp at hp
    pcReq := by intro h2 c2 hp; simp at hp
    pcClose := by intro h2 c2 hp; simp at hp
    stale := hi.stale
    blocked := hi.blocked
    bound := hi.bound
    member := by
      intro h2 hub2 c2 hh2 hm
      rw [live_forward]
      rcases hi.member h2 hub2 c2 hh2 hm with hl | hp
      · exact Or.inl hl
      · rw [hpc] at hp
        exact absurd hp (by simp)
    nonempty := by
      intro h2 hub2 hh2 hl2 hem
      rcases hi.nonempty h2 hub2 hh2 hl2 hem with hb2 | ⟨c3, hp⟩
      · exact Or.inl hb2
      · rw [hpc] at hp
        exact absurd hp (by simp)
    callID := by
      intro h2 r2 hm
      simp only [List.mem_append, List.mem_cons, List.mem_map] at hm
      rcases hm with hm | hm | ⟨w, _, hw⟩
      · exact hi.callID h2 r2 hm
      · simp only [Obs.call.injEq] at hm
        obtain ⟨h1, h3⟩ := hm
        subst h1
        refine ⟨hub, hh, ?_⟩
        rw [h3, onRequest_fst]
        exact hid
      · exact absurd hw (by simp)
    prov := by
      intro h2 v hm
      simp only [List.mem_append, List.mem_map] at hm
      rcases hm with hm | ⟨v2, hv2, heq⟩
      · obtain ⟨r2, hc, hv⟩ := hi.prov h2 v hm
        exact ⟨r2, by simp [hc], hv⟩
      · simp only [Prod.mk.injEq] at heq
        obtain ⟨h1, h3⟩ := heq
        subst h1 h3
        refine ⟨(hub.onRequest r).1, by simp, ?_⟩
        rw [onRequest_broadcasts] at hv2
        rw [onRequest_fst, ← hi.bound h hub hh]
        exact hv2 }

theorem inv_forward_close (handler : Handler) (acts : List Action) (s : System)
    (h : HubPtr) (c : Conn) (hub : ClientHub) (hi : Inv handler acts s)
    (hpc : s.pc = .sendClose h c) (hr : s.ready h = some hub) :
    Inv handler (acts ++ [.forward])
      { s with pc := .select, hubs := s.hubs.set h (hub.onClose c) } := by
  obtain ⟨hh, hb⟩ := (ready_some s h hub).mp hr
  have hlk := hi.pcClose h c hpc
  have hid : hub.ID = c.ID := by
    obtain ⟨hub2, hh2, hid2⟩ := hi.mapped c.ID h hlk
    rw [hh] at hh2
    simp only [Option.some.injEq] at hh2
    rw [hh2]
    exact hid2
  exact {
    mapped := by
      intro id h2 hl2
      simp only at hl2 ⊢
      obtain ⟨hub2, hh2, hid2⟩ := hi.mapped id h2 hl2
      rw [get_set _ _ _ _ _ hh]
      by_cases he : h2 = h
      · subst he
        rw [hh] at hh2
        simp only [Option.some.injEq] at hh2
        subst hh2
        exact ⟨hub.onClose c, by simp, hid2⟩
      · exact ⟨hub2, by simp [he, hh2], hid2⟩
    pcReg := by intro h2 c2 hp; simp at hp
    pcReq := by intro h2 c2 hp; simp at hp
    pcClose := by intro h2 c2 hp; simp at hp
    stale := by
      intro h2 hub2 hh2 hne
      simp only at hh2 hne
      rw [get_set _ _ _ _ _ hh] at hh2
      by_cases he : h2 = h
      · subst he
        simp only [if_true, Option.some.injEq] at hh2
        subst hh2
        exfalso
        apply hne
        show lookup hub.ID s.Clients = some h2
        rw [hid]
        exact hlk
      · simp only [he, if_false] at hh2
        exact hi.stale h2 hub2 hh2 hne
    blocked := by
      intro h2 hub2 hh2 hb2
      simp only at hh2
      rw [get_set _ _ _ _ _ hh] at hh2
      by_cases he : h2 = h
      · subst he
        simp only [if_true, Option.some.injEq] at hh2
        subst hh2
        have h0 : decide ((delConn c.Conn hub.Connections).length = 0) = true := hb2
        have h1 : (delConn c.Conn hub.Connections).length = 0 := of_decide_eq_true h0
        exact List.length_eq_zero.mp h1
      · simp only [he, if_false] at hh2
        exact hi.blocked h2 hub2 hh2 hb2
    bound := by
      intro h2 hub2 hh2
      simp only at hh2
      rw [get_set _ _ _ _ _ hh] at hh2
      by_cases he : h2 = h
      · subst he
        simp only [if_true, Option.some.injEq] at hh2
        subst hh2
        exact hi.bound h2 hub hh
      · simp only [he, if_false] at hh2
        exact hi.bound h2 hub2 hh2
    member := by
      intro h2 hub2 c2 hh2 hm
      simp only at hh2
      rw [live_forward]
      left
      rw [get_set _ _ _ _ _ hh] at hh2
      by_cases he : h2 = h
      · subst he
        simp only [if_true, Option.some.injEq] at hh2
        subst hh2
        have hm2 : c2 ∈ delConn c.Conn hub.Connections := hm
        show live hub.ID c2 acts = true
        obtain ⟨hc, hcne⟩ := (mem_delConn _ _ _).mp hm2
        rcases hi.member h2 hub c2 hh hc with hl | hp
        · exact hl
        · rw [hpc] at hp
          simp only [MainPC.sendClose.injEq, true_and] at hp
          rw [hp] at hcne
          exact absurd rfl hcne
      · simp only [he, if_false] at hh2
        rcases hi.member h2 hub2 c2 hh2 hm with hl | hp
        · exact hl
        · rw [hpc] at hp
          simp only [MainPC.sendClose.injEq] at hp
          exact absurd hp.1.symm he
    nonempty := by
      intro h2 hub2 hh2 hl2 hem
      simp only at hh2 hl2
      left
      rw [get_set _ _ _ _ _ hh] at hh2
      by_cases he : h2 = h
      · subst he
        simp only [if_true, Option.some.injEq] at hh2
        subst hh2
        have hem2 : delConn c.Conn hub.Connections = [] := hem
        show decide ((delConn c.Conn hub.Connections).length = 0) = true
        rw [hem2]
        rfl
      · simp only [he, if_false] at hh2
        rcases hi.nonempty h2 hub2 hh2 hl2 hem with hb2 | ⟨c3, hp⟩
        · exact hb2
        · rw [hpc] at hp
          exact absurd hp (by simp)
    callID := by
      intro h2 r hm
      obtain ⟨hub2, hh2, hid2⟩ := hi.callID h2 r hm
      simp only
      rw [get_set _ _ _ _ _ hh]
      by_cases he : h2 = h
      · subst he
        rw [hh] at hh2
        simp only [Option.some.injEq] at hh2
        subst hh2
        exact ⟨hub.onClose c, by simp, hid2⟩
      · exact ⟨hub2, by simp [he, hh2], hid2⟩
    prov := hi.prov }

theorem step_empty_cases (handler : Handler) (s s' : System) (h : HubPtr)
    (hs : step handler (.empty h) s = some s') :
    ∃ hub, s.pc = .select ∧ s.hubs[h]? = some hub ∧ hub.sendingEmpty = true ∧
      s' = { s with
        Clients := remove hub.ID s.Clients
        hubs := s.hubs.set h { hub with sendingEmpty := false } } := by
  unfold step at hs
  simp only at hs
  cases hpc : s.pc with
  | select =>
    cases hh : s.hubs[h]? with
    | none =>
      rw [hpc, hh] at hs
      exact absurd hs (by simp)
    | some hub =>
      rw [hpc, hh] at hs
      simp only at hs
      cases hb : hub.sendingEmpty with
      | false =>
        rw [hb] at hs
        exact absurd hs (by simp)
      | true =>
        rw [hb] at hs
        simp only [if_true, Option.some.injEq] at hs
        exact ⟨hub, rfl, rfl, hb, hs.symm⟩
  | sendRegister h2 c =>
    rw [hpc] at hs
    exact absurd hs (by simp)
  | sendRequest h2 c =>
    rw [hpc] at hs
    exact absurd hs (by simp)
  | sendClose h2 c =>
    rw [hpc] at hs
    exact absurd hs (by simp)

theorem step_broadcast_cases (handler : Handler) (s s' : System) (k : Nat)
    (hs : step handler (.broadcast k) s = some s') :
    ∃ h v hub, s.pending[k]? = some (h, v) ∧ s.ready h = some hub ∧
      s' = { s with
        pending := s.pending.eraseIdx k
        trace := s.trace ++ (hub.onBroadcast v).map (fun w => Obs.write h w.1 w.2) } := by
  unfold step at hs
  simp only at hs
  cases hp : s.pending[k]? with
  | none =>
    rw [hp] at hs
    exact absurd hs (by simp)
  | some hv =>
    obtain ⟨h, v⟩ := hv
    rw [hp] at hs
    simp only at hs
    cases hr : s.ready h with
    | none =>
      rw [hr] at hs
      exact absurd hs (by simp)
    | some hub =>
      rw [hr] at hs
      simp only [Option.some.injEq] at hs
      exact ⟨h, v, hub, rfl, hr, hs.symm⟩

theorem inv_empty (handler : Handler) (acts : List Action) (s : System)
    (h : HubPtr) (hub : ClientHub) (hi : Inv handler acts s)
    (hpc : s.pc = .select) (hh : s.hubs[h]? = some hub) (hb : hub.sendingEmpty = true) :
    Inv handler (acts ++ [.empty h])
      { s with
        Clients := remove hub.ID s.Clients
        hubs := s.hubs.set h { hub with sendingEmpty := false } } := by
  have hlk := mapped_of_blocked handler acts s hi h hub hh hb
  have hnil := hi.blocked h hub hh hb
  have hlive : ∀ id c, live id c (acts ++ [.empty h]) = live id c acts := by
    intro id c
    rw [live_snoc]
  exact {
    mapped := by
      intro id h2 hl2
      simp only at hl2 ⊢
      have hne : id ≠ hub.ID := by
        intro he
        rw [he, lookup_remove_self] at hl2
        exact absurd hl2 (by simp)
      rw [lookup_remove_ne _ _ hne] at hl2
      obtain ⟨hub2, hh2, hid2⟩ := hi.mapped id h2 hl2
      rw [get_set _ _ _ _ _ hh]
      by_cases he : h2 = h
      · subst he
        rw [hh] at hh2
        simp only [Option.some.injEq] at hh2
        subst hh2
        exact absurd hid2.symm hne
      · exact ⟨hub2, by simp [he, hh2], hid2⟩
    pcReg := by intro h2 c2 hp; simp only at hp; rw [hpc] at hp; exact absurd hp (by simp)
    pcReq := by intro h2 c2 hp; simp only at hp; rw [hpc] at hp; exact absurd hp (by simp)
    pcClose := by intro h2 c2 hp; simp only at hp; rw [hpc] at hp; exact absurd hp (by simp)
    stale := by
      intro h2 hub2 hh2 hne
      simp only at hh2 hne
      rw [get_set _ _ _ _ _ hh] at hh2
      by_cases he : h2 = h
      · subst he
        simp only [if_true, Option.some.injEq] at hh2
        subst hh2
        exact ⟨hnil, rfl⟩
      · simp only [he, if_false] at hh2
        apply hi.stale h2 hub2 hh2
        intro hold
        by_cases hid : hub2.ID = hub.ID
        · rw [hid, hlk] at hold
          simp only [Option.some.injEq] at hold
          exact he hold.symm
        · apply hne
          rw [lookup_remove_ne _ _ hid]
          exact hold
    blocked := by
      intro h2 hub2 hh2 hb2
      simp only at hh2
      rw [get_set _ _ _ _ _ hh] at hh2
      by_cases he : h2 = h
      · subst he
        simp only [if_true, Option.some.injEq] at hh2
        subst hh2
        exact absurd hb2 (by simp)
      · simp only [he, if_false] at hh2
        exact hi.blocked h2 hub2 hh2 hb2
    bound := by
      intro h2 hub2 hh2
      simp only at hh2
      rw [get_set _ _ _ _ _ hh] at hh2
      by_cases he : h2 = h
      · subst he
        simp only [if_true, Option.some.injEq] at hh2
        subst hh2
        exact hi.bound h2 hub hh
      · simp only [he, if_false] at hh2
        exact hi.bound h2 hub2 hh2
    member := by
      intro h2 hub2 c2 hh2 hm
      simp only at hh2
      rw [hlive]
      left
      rw [get_set _ _ _ _ _ hh] at hh2
      by_cases he : h2 = h
      · subst he
        simp only [if_true, Option.some.injEq] at hh2
        subst hh2
        have hm2 : c2 ∈ hub.Connections := hm
        rw [hnil] at hm2
        exact absurd hm2 (by simp)
      · simp only [he, if_false] at hh2
        rcases hi.member h2 hub2 c2 hh2 hm with hl | hp
        · exact hl
        · rw [hpc] at hp
          exact absurd hp (by simp)
    nonempty := by
      intro h2 hub2 hh2 hl2 hem
      simp only at hh2 hl2
      left
      rw [get_set _ _ _ _ _ hh] at hh2
      by_cases he : h2 = h
      · subst he
        simp only [if_true, Option.some.injEq] at hh2
        subst hh2
        have hl3 : lookup hub.ID (remove hub.ID s.Clients) = some h2 := hl2
        rw [lookup_remove_self] at hl3
        exact absurd hl3 (by simp)
      · simp only [he, if_false] at hh2
        have hid : hub2.ID ≠ hub.ID := by
          intro hid
          rw [hid, lookup_remove_self] at hl2
          exact absurd hl2 (by simp)
        rw [lookup_remove_ne _ _ hid] at hl2
        rcases hi.nonempty h2 hub2 hh2 hl2 hem with hb2 | ⟨c3, hp⟩
        · exact hb2
        · rw [hpc] at hp
          exact absurd hp (by simp)
    callID := by
      intro h2 r hm
      obtain ⟨hub2, hh2, hid2⟩ := hi.callID h2 r hm
      simp only
      rw [get_set _ _ _ _ _ hh]
      by_cases he : h2 = h
      · subst he
        rw [hh] at hh2
        simp only [Option.some.injEq] at hh2
        subst hh2
        exact ⟨{ hub with sendingEmpty := false }, by simp, hid2⟩
      · exact ⟨hub2, by simp [he, hh2], hid2⟩
    prov := hi.prov }

theorem inv_broadcast (handler : Handler) (acts : List Action) (s : System)
    (k : Nat) (ws : List Obs) (hi : Inv handler acts s)
    (hws : ∀ h r, Obs.call h r ∉ ws) :
    Inv handler (acts ++ [.broadcast k])
      { s with pending := s.pending.eraseIdx k, trace := s.trace ++ ws } := by
  have hlive : ∀ id c, live id c (acts ++ [.broadcast k]) = live id c acts := by
    intro id c
    rw [live_snoc]
  exact {
    mapped := hi.mapped
    pcReg := by
      intro h2 c2 hp
      obtain ⟨h1, h3⟩ := hi.pcReg h2 c2 hp
      exact ⟨h1, by rw [hlive]; exact h3⟩
    pcReq := hi.pcReq
    pcClose := hi.pcClose
    stale := hi.stale
    blocked := hi.blocked
    bound := hi.bound
    member := by
      intro h2 hub2 c2 hh2 hm
      rw [hlive]
      exact hi.member h2 hub2 c2 hh2 hm
    nonempty := hi.nonempty
    callID := by
      intro h2 r hm
      simp only [List.mem_append] at hm
      rcases hm with hm | hm
      · exact hi.callID h2 r hm
      · exact absurd hm (hws h2 r)
    prov := by
      intro h2 v hm
      obtain ⟨r, hc, hv⟩ := hi.prov h2 v (List.mem_of_mem_eraseIdx hm)
      exact ⟨r, by simp [hc], hv⟩ }

theorem inv_step (handler : Handler) (acts : List Action) (s s' : System) (a : Action)
    (hi : Inv handler acts s) (hs : step handler a s = some s') :
    Inv handler (acts ++ [a]) s' := by
  cases a with
  | register c => exact inv_register handler acts s s' c hi hs
  | request r => exact inv_request handler acts s s' r hi hs
  | close c => exact inv_close handler acts s s' c hi hs
  | forward =>
    rcases step_forward_cases handler s s' hs with
      ⟨h, c, hub, hpc, hr, he⟩ | ⟨h, r, hub, hpc, hr, he⟩ | ⟨h, c, hub, hpc, hr, he⟩
    · rw [he]
      exact inv_forward_register handler acts s h c hub hi hpc hr
    · rw [he]
      exact inv_forward_request handler acts s h r hub hi hpc hr
    · rw [he]
      exact inv_forward_close handler acts s h c hub hi hpc hr
  | empty h =>
    obtain ⟨hub, hpc, hh, hb, he⟩ := step_empty_cases handler s s' h hs
    rw [he]
    exact inv_empty handler acts s h hub hi hpc hh hb
  | broadcast k =>
    obtain ⟨h, v, hub, hp, hr, he⟩ := step_broadcast_cases handler s s' k hs
    rw [he]
    apply inv_broadcast handler acts s k _ hi
    intro h2 r hm
    simp only [List.mem_map] at hm
    obtain ⟨w, _, hw⟩ := hm
    exact absurd hw (by simp)

/-- Every reachable state satisfies the invariant, for the schedule that
reaches it. -/
theorem inv_run (handler : Handler) (acts : List Action) (s : System)
    (hr : run handler acts NewMainHub = some s) : Inv handler acts s := by
  induction acts using List.reverseRecOn generalizing s with
  | nil =>
    simp only [run, Option.some.injEq] at hr
    subst hr
    exact inv_init handler
  | append_singleton as a ih =>
    rw [run_snoc] at hr
    cases hm : run handler as NewMainHub with
    | none =>
      rw [hm] at hr
      exact absurd hr (by simp)
    | some m =>
      rw [hm] at hr
      exact inv_step handler as m s a (ih m hm) hr

/-! ## Operations processed to completion -/

theorem ready_of_get (s : System) (h : HubPtr) (hub : ClientHub)
    (hh : s.hubs[h]? = some hub) (hb : hub.sendingEmpty = false) : s.ready h = some hub :=
  (ready_some s h hub).mpr ⟨hh, hb⟩

theorem process_unmapped_request (handler : Handler) (s : System) (r : request)
    (hpc : s.pc = .select) (hl : lookup r.ID s.Clients = none) :
    process handler (.Request r) s = some s := by
  simp [process, Op.action, step, hpc, hl, completion, run]

theorem process_unmapped_close (handler : Handler) (s : System) (c : Conn)
    (hpc : s.pc = .select) (hl : lookup c.ID s.Clients = none) :
    process handler (.Close c) s = some s := by
  simp [process, Op.action, step, hpc, hl, completion, run]

theorem process_register_new (handler : Handler) (s : System) (c : Conn)
    (hpc : s.pc = .select) (hl : lookup c.ID s.Clients = none) :
    process handler (.Register c) s = some { s with
      Clients := s.Clients ++ [(c.ID, s.hubs.length)]
      hubs := s.hubs ++ [{ NewClientHub c.ID handler with Connections := [c.Conn] }] } := by
  have hr : ({ s with
      Clients := s.Clients ++ [(c.ID, s.hubs.length)]
      hubs := s.hubs ++ [NewClientHub c.ID handler]
      pc := .sendRegister s.hubs.length c } : System).ready s.hubs.length =
      some (NewClientHub c.ID handler) := by
    apply ready_of_get
    · simp
    · rfl
  simp only [process, Op.action, step, hpc, hl, completion, run, Option.some_bind, hr,
    Option.some.injEq]
  cases s with
  | mk cl pc hubs pend tr =>
    simp only [System.mk.injEq, true_and, and_true]
    simp [ClientHub.onRegister, NewClientHub, addConn, hpc.symm]

theorem process_register_mapped (handler : Handler) (s : System) (c : Conn) (p : HubPtr)
    (hub : ClientHub) (hpc : s.pc = .select) (hl : lookup c.ID s.Clients = some p)
    (hr : s.ready p = some hub) :
    process handler (.Register c) s =
      some { s with hubs := s.hubs.set p (hub.onRegister c) } := by
  have hr2 : ({ s with pc := .sendRegister p c } : System).ready p = some hub := hr
  simp only [process, Op.action, step, hpc, hl, completion, run, Option.some_bind, hr2,
    Option.some.injEq]

theorem process_request_mapped (handler : Handler) (s : System) (r : request) (p : HubPtr)
    (hub : ClientHub) (hpc : s.pc = .select) (hl : lookup r.ID s.Clients = some p)
    (hr : s.ready p = some hub) :
    process handler (.Request r) s =
      some { s with
        pending := s.pending ++ (hub.onRequest r).2.1.map (fun v => (p, v))
        trace := s.trace ++ Obs.call p (hub.onRequest r).1 ::
          (hub.onRequest r).2.2.map (fun w => Obs.write p w.1 w.2) } := by
  have hr2 : ({ s with pc := .sendRequest p r } : System).ready p = some hub := hr
  simp only [process, Op.action, step, hpc, hl, completion, run, Option.some_bind, hr2,
    Option.some.injEq]

theorem process_blocked (handler : Handler) (op : Op) (s : System) (hpc : s.pc ≠ .select) :
    process handler op s = none := by
  cases op <;> cases h : s.pc <;> first
    | exact absurd h hpc
    | simp [process, Op.action, step, h]

/-- C6: when `id` is not a key of `main.Clients`, a request under `id` and a
close under `id` are no-ops in every state: once processed, the whole state is
as it was: the map, every hub and its connections, the blocked broadcasts and
the log of Handler calls and writes, so no hub is created, no Handler is called
and nothing is written; and they are processed, without failure, whenever the
main hub is at its `select`. -/
theorem unknown_group_is_noop (handler : Handler) (s : System) (id : String)
    (hl : lookup id s.Clients = none) :
    (∀ msg data conn s',
        process handler (.Request { ID := id, Msg := msg, Data := data, Conn := conn }) s =
          some s' → s' = s) ∧
      (∀ conn s', process handler (.Close { ID := id, Conn := conn }) s = some s' → s' = s) ∧
      (s.pc = .select →
        (∀ msg data conn,
          process handler (.Request { ID := id, Msg := msg, Data := data, Conn := conn }) s =
            some s) ∧
        ∀ conn, process handler (.Close { ID := id, Conn := conn }) s = some s) := by
  refine ⟨?_, ?_, ?_⟩
  · intro msg data conn s' hs
    by_cases hpc : s.pc = .select
    · rw [process_unmapped_request handler s
        { ID := id, Msg := msg, Data := data, Conn := conn } hpc hl] at hs
      exact (Option.some.inj hs).symm
    · rw [process_blocked handler _ s hpc] at hs
      exact absurd hs (by simp)
  · intro conn s' hs
    by_cases hpc : s.pc = .select
    · rw [process_unmapped_close handler s { ID := id, Conn := conn } hpc hl] at hs
      exact (Option.some.inj hs).symm
    · rw [process_blocked handler _ s hpc] at hs
      exact absurd hs (by simp)
  · intro hpc
    exact ⟨fun msg data conn =>
        process_unmapped_request handler s { ID := id, Msg := msg, Data := data, Conn := conn }
          hpc hl,
      fun conn => process_unmapped_close handler s { ID := id, Conn := conn } hpc hl⟩

/-- C6 on the state with the single group `"u2"`: a request and a close under
`"u1"` are processed and change nothing. -/
theorem unknown_group_is_noop_witness :
    lookup "u1" oneGroup.Clients = none ∧ oneGroup.pc = .select ∧
      process echoWithID (.Request { ID := "u1", Msg := [1], Data := .nil, Conn := 7 }) oneGroup =
        some oneGroup ∧
      process echoWithID (.Close { ID := "u1", Conn := 7 }) oneGroup = some oneGroup :=
  ⟨by decide, rfl,
    ((unknown_group_is_noop echoWithID oneGroup "u1" (by decide)).2.2 rfl).1 [1] .nil 7,
    ((unknown_group_is_noop echoWithID oneGroup "u1" (by decide)).2.2 rfl).2 7⟩

/-- Registration in a reachable state where the main hub and the hub mapped
under `id`, if any, are at their `select`. -/
theorem registration_effect_of_ready (handler : Handler) (acts : List Action) (s : System)
    (id : String) (h : ConnPtr)
    (hrun : run handler acts NewMainHub = some s) (hpc : s.pc = .select)
    (hready : ∀ p, lookup id s.Clients = some p → ∃ hub, s.ready p = some hub) :
    ∃ s' p hub, process handler (.Register { ID := id, Conn := h }) s = some s' ∧
      lookup id s'.Clients = some p ∧ s'.hubs[p]? = some hub ∧
      hub.ID = id ∧ hub.Handler = handler ∧ h ∈ hub.Connections ∧
      (lookup id s.Clients = none → s.hubs[p]? = none ∧ hub.Connections = [h]) ∧
      (∀ p0 hub0, lookup id s.Clients = some p0 → s.hubs[p0]? = some hub0 →
        p = p0 ∧ ∀ x, x ∈ hub.Connections ↔ x = h ∨ x ∈ hub0.Connections) ∧
      (∀ q hubq, q ≠ p → s.hubs[q]? = some hubq → s'.hubs[q]? = some hubq) ∧
      (∀ id2, id2 ≠ id →
        lookup id2 s'.Clients = lookup id2 s.Clients ∧ s'.members id2 = s.members id2) := by
  have hi := inv_run handler acts s hrun
  cases hl : lookup id s.Clients with
  | none =>
    refine ⟨_, s.hubs.length, { NewClientHub id handler with Connections := [h] },
      process_register_new handler s ⟨id, h⟩ hpc hl, ?_, ?_, rfl, rfl, by simp, ?_, ?_, ?_, ?_⟩
    · simp only
      rw [lookup_append, hl]
      simp
    · simp
    · intro _
      exact ⟨by simp, rfl⟩
    · intro p0 hub0 hcontra
      exact absurd hcontra (by simp)
    · intro q hubq _ hq
      exact get_snoc_of_some _ _ _ _ hq
    · intro id2 hne
      have hlk : lookup id2 (s.Clients ++ [(id, s.hubs.length)]) = lookup id2 s.Clients := by
        rw [lookup_append]
        cases lookup id2 s.Clients with
        | some x => rfl
        | none =>
          have hne2 : ¬id = id2 := fun e => hne e.symm
          simp [hne2]
      refine ⟨hlk, ?_⟩
      unfold System.members
      simp only
      rw [hlk]
      cases hl2 : lookup id2 s.Clients with
      | none => rfl
      | some p2 =>
        obtain ⟨hub2, hh2, _⟩ := hi.mapped id2 p2 hl2
        simp only
        rw [get_snoc_of_some _ _ _ _ hh2, hh2]
  | some p0 =>
    obtain ⟨hub0, hr⟩ := hready p0 hl
    obtain ⟨hh, hb⟩ := (ready_some s p0 hub0).mp hr
    obtain ⟨hubm, hhm, hidm⟩ := hi.mapped id p0 hl
    have hid : hub0.ID = id := by
      rw [hh] at hhm
      simp only [Option.some.injEq] at hhm
      rw [hhm]
      exact hidm
    refine ⟨_, p0, hub0.onRegister ⟨id, h⟩,
      process_register_mapped handler s ⟨id, h⟩ p0 hub0 hpc hl hr, hl, ?_, hid, ?_, ?_, ?_, ?_,
      ?_, ?_⟩
    · simp only
      rw [get_set _ _ _ _ _ hh]
      simp
    · exact hi.bound p0 hub0 hh
    · exact (mem_addConn _ _ _).mpr (Or.inl rfl)
    · intro hcontra
      exact absurd hcontra (by simp)
    · intro p1 hub1 hp1 hh1
      simp only [Option.some.injEq] at hp1
      subst hp1
      rw [hh] at hh1
      simp only [Option.some.injEq] at hh1
      subst hh1
      exact ⟨rfl, fun x => mem_addConn _ _ _⟩
    · intro q hubq hq hhq
      simp only
      rw [get_set _ _ _ _ _ hh]
      simp [hq, hhq]
    · intro id2 hne
      refine ⟨rfl, ?_⟩
      unfold System.members
      simp only
      cases hl2 : lookup id2 s.Clients with
      | none => rfl
      | some p2 =>
        obtain ⟨hub2, hh2, hid2⟩ := hi.mapped id2 p2 hl2
        have hpne : p2 ≠ p0 := by
          intro he
          subst he
          rw [hh] at hh2
          simp only [Option.some.injEq] at hh2
          subst hh2
          exact hne (hid2.symm.trans hid)
        simp only
        rw [get_set _ _ _ _ _ hh]
        simp [hpne]

theorem process_register_some_iff (handler : Handler) (s : System) (c : Conn) :
    (∃ s', process handler (.Register c) s = some s') ↔
      (s.pc = .select ∧ ∀ p, lookup c.ID s.Clients = some p → ∃ hub, s.ready p = some hub) := by
  constructor
  · rintro ⟨s', hs⟩
    by_cases hpc : s.pc = .select
    · refine ⟨hpc, ?_⟩
      intro p hl
      cases hr : s.ready p with
      | some hub => exact ⟨hub, rfl⟩
      | none =>
        exfalso
        have hr2 : ({ s with pc := .sendRegister p c } : System).ready p = none := hr
        simp [process, Op.action, step, hpc, hl, completion, run, hr2] at hs
    · rw [process_blocked handler _ s hpc] at hs
      exact absurd hs (by simp)
  · rintro ⟨hpc, hready⟩
    cases hl : lookup c.ID s.Clients with
    | none => exact ⟨_, process_register_new handler s c hpc hl⟩
    | some p =>
      obtain ⟨hub, hr⟩ := hready p hl
      exact ⟨_, process_register_mapped handler s c p hub hpc hl hr⟩

/-- In every reachable state, a registration `(id, h)` that is processed leaves
`id` mapped to a hub with identifier `id`, bound to the configured Handler,
with `h` among its connections: a new hub with exactly `h` when `id` was not
mapped, the same hub with the old connections and `h` when it was; every other
hub, and the entry and the members of every other identifier, are as before.
It is processed exactly when the main hub is at its `select` and the hub mapped
under `id`, if there is one, is at its `select` too. -/
theorem registration_effect (handler : Handler) (acts : List Action) (s : System)
    (id : String) (h : ConnPtr) (hrun : run handler acts NewMainHub = some s) :
    ((∃ s', process handler (.Register { ID := id, Conn := h }) s = some s') ↔
        (s.pc = .select ∧
          ∀ p, lookup id s.Clients = some p → ∃ hub, s.ready p = some hub)) ∧
      ∀ s', process handler (.Register { ID := id, Conn := h }) s = some s' →
        ∃ p hub, lookup id s'.Clients = some p ∧ s'.hubs[p]? = some hub ∧
          hub.ID = id ∧ hub.Handler = handler ∧ h ∈ hub.Connections ∧
          (lookup id s.Clients = none → s.hubs[p]? = none ∧ hub.Connections = [h]) ∧
          (∀ p0 hub0, lookup id s.Clients = some p0 → s.hubs[p0]? = some hub0 →
            p = p0 ∧ ∀ x, x ∈ hub.Connections ↔ x = h ∨ x ∈ hub0.Connections) ∧
          (∀ q hubq, q ≠ p → s.hubs[q]? = some hubq → s'.hubs[q]? = some hubq) ∧
          (∀ id2, id2 ≠ id →
            lookup id2 s'.Clients = lookup id2 s.Clients ∧
              s'.members id2 = s.members id2) := by
  refine ⟨process_register_some_iff handler s { ID := id, Conn := h }, ?_⟩
  intro s' hs
  obtain ⟨hpc, hready⟩ :=
    (process_register_some_iff handler s { ID := id, Conn := h }).mp ⟨s', hs⟩
  obtain ⟨s2, p, hub, hs2, hrest⟩ :=
    registration_effect_of_ready handler acts s id h hrun hpc hready
  rw [hs] at hs2
  have he : s' = s2 := Option.some.inj hs2
  subst he
  exact ⟨p, hub, hrest⟩

theorem calls_append (xs ys : List Obs) : calls (xs ++ ys) = calls xs ++ calls ys := by
  induction xs with
  | nil => rfl
  | cons x rest ih =>
    cases x with
    | call h r => simp [calls, ih]
    | write h c v => simp [calls, ih]

theorem calls_writes (p : HubPtr) (ws : List (ConnPtr × Value)) :
    calls (ws.map (fun w => Obs.write p w.1 w.2)) = [] := by
  induction ws with
  | nil => rfl
  | cons w rest ih => simp [calls, ih]

theorem writesTo_append (c : ConnPtr) (xs ys : List Obs) :
    writesTo c (xs ++ ys) = writesTo c xs ++ writesTo c ys := by
  induction xs with
  | nil => rfl
  | cons x rest ih =>
    cases x with
    | call h r => simp [writesTo, ih]
    | write h c2 v =>
      by_cases hc : c2 = c
      · simp [writesTo, hc, ih]
      · simp [writesTo, hc, ih]

/-- C5 as stated fails: the Handler broadcasts a value and then returns an
error; connection 1 sent the message.  Connection 2, another member of the
group, is written to, and connection 1 is written two frames, the error frame
and the value. -/
theorem handler_error_with_broadcast_counterexample :
    (broadcastThenFail { ID := "u1", Msg := [], Data := .nil }).err = some "boom" ∧
      ∃ s, run broadcastThenFail
          (registerAll "u1" [1, 2] ++
            [.request { ID := "u1", Msg := [], Data := .nil, Conn := 1 }, .forward, .broadcast 0])
          NewMainHub = some s ∧
        writesTo 1 s.trace = [errorFrame "boom", .str "partial"] ∧
        writesTo 2 s.trace = [.str "partial"] :=
  ⟨rfl, _, rfl, by decide, by decide⟩

/-- C10 fails on the code: after the last connection of `"u1"` closes, its hub
is blocked in `main.Empty <- client.ID`; when the main hub receives a new
registration under `"u1"` before that, it is blocked in the send on the
`Register` channel of that same hub, and from there no rendezvous of the
program is enabled any more. -/
theorem empty_send_deadlocks (handler : Handler) :
    ∃ s, run handler
        [.register { ID := "u1", Conn := 1 }, .forward, .close { ID := "u1", Conn := 1 },
          .forward, .register { ID := "u1", Conn := 2 }] NewMainHub = some s ∧
      s.pc = .sendRegister 0 { ID := "u1", Conn := 2 } ∧
      s.hubs.map (fun hub => (hub.ID, hub.sendingEmpty)) = [("u1", true)] ∧
      ∀ a, step handler a s = none := by
  refine ⟨
    { Clients := [("u1", 0)]
      pc := .sendRegister 0 { ID := "u1", Conn := 2 }
      hubs := [{ ID := "u1", Connections := [], Handler := handler, sendingEmpty := true }]
      pending := []
      trace := [] }, rfl, rfl, rfl, ?_⟩
  intro a
  cases a with
  | register c => rfl
  | request r => rfl
  | close c => rfl
  | forward => rfl
  | empty h => simp [step]
  | broadcast k => simp [step]

/-! ## Fan-out -/

theorem step_broadcast_eq (handler : Handler) (s : System) (k : Nat) (h : HubPtr) (v : Value)
    (hub : ClientHub) (hp : s.pending[k]? = some (h, v)) (hr : s.ready h = some hub) :
    step handler (.broadcast k) s =
      some { s with
        pending := s.pending.eraseIdx k
        trace := s.trace ++ fanOut h hub.Connections v } := by
  simp [step, hp, hr, ClientHub.onBroadcast, fanOut, List.map_map, Function.comp_def]

/-- C7, as amended: of two blocked broadcasts of one hub, the one started first
(`k1`) and the one started later (`k2`), either can be received first.  The
hub handles each in one turn that writes the value once to each of its
connections, so the two fan-outs do not interleave: the log grows by the whole
fan-out of one value followed by the whole fan-out of the other; the hubs and
the map are unchanged. -/
theorem broadcasts_fan_out_in_either_order (handler : Handler) (s : System) (k1 k2 : Nat)
    (h : HubPtr) (v1 v2 : Value) (hub : ClientHub) (hlt : k1 < k2)
    (h1 : s.pending[k1]? = some (h, v1)) (h2 : s.pending[k2]? = some (h, v2))
    (hr : s.ready h = some hub) :
    (∃ s', run handler [.broadcast k1, .broadcast (k2 - 1)] s = some s' ∧
        s'.trace = s.trace ++ fanOut h hub.Connections v1 ++ fanOut h hub.Connections v2 ∧
        s'.hubs = s.hubs ∧ s'.Clients = s.Clients) ∧
      (∃ s', run handler [.broadcast k2, .broadcast k1] s = some s' ∧
        s'.trace = s.trace ++ fanOut h hub.Connections v2 ++ fanOut h hub.Connections v1 ∧
        s'.hubs = s.hubs ∧ s'.Clients = s.Clients) := by
  constructor
  · have hp2 : (s.pending.eraseIdx k1)[k2 - 1]? = some (h, v2) := by
      rw [List.getElem?_eraseIdx]
      have hnlt : ¬ (k2 - 1 < k1) := by omega
      have hk : k2 - 1 + 1 = k2 := by omega
      rw [if_neg hnlt, hk]
      exact h2
    refine ⟨{ s with
      pending := (s.pending.eraseIdx k1).eraseIdx (k2 - 1)
      trace := s.trace ++ fanOut h hub.Connections v1 ++ fanOut h hub.Connections v2 },
      ?_, rfl, rfl, rfl⟩
    simp only [run, step_broadcast_eq handler s k1 h v1 hub h1 hr, Option.some_bind]
    have e2 := step_broadcast_eq handler
      { s with
        pending := s.pending.eraseIdx k1
        trace := s.trace ++ fanOut h hub.Connections v1 } (k2 - 1) h v2 hub hp2 hr
    rw [e2]
    rfl
  · have hp1 : (s.pending.eraseIdx k2)[k1]? = some (h, v1) := by
      rw [List.getElem?_eraseIdx, if_pos hlt]
      exact h1
    refine ⟨{ s with
      pending := (s.pending.eraseIdx k2).eraseIdx k1
      trace := s.trace ++ fanOut h hub.Connections v2 ++ fanOut h hub.Connections v1 },
      ?_, rfl, rfl, rfl⟩
    simp only [run, step_broadcast_eq handler s k2 h v2 hub h2 hr, Option.some_bind]
    have e2 := step_broadcast_eq handler
      { s with
        pending := s.pending.eraseIdx k2
        trace := s.trace ++ fanOut h hub.Connections v2 } k1 h v1 hub hp1 hr
    rw [e2]
    rfl

/-- C7 on the two blocked broadcasts of `twoPending`: both orders can happen. -/
theorem broadcasts_fan_out_in_either_order_witness :
    run twoBroadcasts
        (registerAll "u1" [1, 2] ++
          [.request { ID := "u1", Msg := [], Data := .nil, Conn := 1 }, .forward])
        NewMainHub = some twoPending ∧
      (∃ s', run twoBroadcasts [.broadcast 0, .broadcast 0] twoPending = some s' ∧
        s'.trace = twoPending.trace ++ fanOut 0 [1, 2] (.str "first") ++
          fanOut 0 [1, 2] (.str "second")) ∧
      (∃ s', run twoBroadcasts [.broadcast 1, .broadcast 0] twoPending = some s' ∧
        s'.trace = twoPending.trace ++ fanOut 0 [1, 2] (.str "second") ++
          fanOut 0 [1, 2] (.str "first")) := by
  have hw := broadcasts_fan_out_in_either_order twoBroadcasts twoPending 0 1 0
    (.str "first") (.str "second")
    { ID := "u1", Connections := [1, 2], Handler := twoBroadcasts, sendingEmpty := false }
    (by decide) rfl rfl rfl
  obtain ⟨⟨s1, hs1, ht1, _⟩, ⟨s2, hs2, ht2, _⟩⟩ := hw
  exact ⟨rfl, ⟨s1, hs1, ht1⟩, ⟨s2, hs2, ht2⟩⟩

/-- C7 as stated fails: the Handler broadcasts `"first"` and then `"second"`,
the goroutine of `"second"` is received first, and both connections are
written `"second"` before `"first"`. -/
theorem broadcast_order_counterexample :
    (twoBroadcasts { ID := "u1", Msg := [], Data := .nil }).broadcasts =
        [.str "first", .str "second"] ∧
      ∃ s, run twoBroadcasts
          (registerAll "u1" [1, 2] ++
            [.request { ID := "u1", Msg := [], Data := .nil, Conn := 1 }, .forward,
              .broadcast 1, .broadcast 0])
          NewMainHub = some s ∧
        writesTo 1 s.trace = [.str "second", .str "first"] ∧
        writesTo 2 s.trace = [.str "second", .str "first"] :=
  ⟨rfl, _, rfl, by decide, by decide⟩

/-! ## One group, one message -/

theorem register_first (handler : Handler) (id : String) (c : ConnPtr) :
    run handler [.register { ID := id, Conn := c }, .forward] NewMainHub =
      some (groupState handler id [c] [] []) := by
  simp [run, step, NewMainHub, lookup, System.ready, NewClientHub, ClientHub.onRegister,
    addConn, groupState]

theorem register_next (handler : Handler) (id : String) (cs : List ConnPtr) (c : ConnPtr)
    (vals : List Value) (t : List Obs) (hc : c ∉ cs) :
    run handler [.register { ID := id, Conn := c }, .forward] (groupState handler id cs vals t) =
      some (groupState handler id (cs ++ [c]) vals t) := by
  simp [run, step, lookup, System.ready, ClientHub.onRegister, addConn, groupState, hc]

theorem registerAll_next (handler : Handler) (id : String) (vals : List Value) (t : List Obs)
    (rest cs : List ConnPtr) (hnd : (cs ++ rest).Nodup) :
    run handler (registerAll id rest) (groupState handler id cs vals t) =
      some (groupState handler id (cs ++ rest) vals t) := by
  induction rest generalizing cs with
  | nil => simp [registerAll, run]
  | cons c tl ih =>
    have hc : c ∉ cs := by
      intro hmem
      have := List.nodup_append.mp hnd
      exact this.2.2 hmem (List.mem_cons_self c tl)
    have hnd2 : ((cs ++ [c]) ++ tl).Nodup := by simpa using hnd
    show run handler ([.register { ID := id, Conn := c }, .forward] ++ registerAll id tl) _ = _
    rw [run_append, register_next handler id cs c vals t hc, Option.some_bind, ih _ hnd2]
    simp

theorem registerAll_init (handler : Handler) (id : String) (cs : List ConnPtr)
    (hne : cs ≠ []) (hnd : cs.Nodup) :
    run handler (registerAll id cs) NewMainHub = some (groupState handler id cs [] []) := by
  cases cs with
  | nil => exact absurd rfl hne
  | cons c tl =>
    show run handler ([.register { ID := id, Conn := c }, .forward] ++ registerAll id tl) _ = _
    rw [run_append, register_first, Option.some_bind,
      registerAll_next handler id [] [] tl [c] (by simpa using hnd)]
    simp

theorem request_group (handler : Handler) (cs : List ConnPtr) (r : request) :
    run handler [.request r, .forward] (groupState handler r.ID cs [] []) =
      some (groupState handler r.ID cs
        (handler { ID := r.ID, Msg := r.Msg, Data := r.Data }).broadcasts
        (Obs.call 0 { ID := r.ID, Msg := r.Msg, Data := r.Data } ::
          errorWrites 0 r.Conn (handler { ID := r.ID, Msg := r.Msg, Data := r.Data }).err)) := by
  have hr : ({ groupState handler r.ID cs [] [] with pc := .sendRequest 0 r } : System).ready 0 =
      some { ID := r.ID, Connections := cs, Handler := handler, sendingEmpty := false } := rfl
  simp only [run, step, groupState, lookup, if_true, Option.some_bind, List.map_nil,
    List.nil_append] at hr ⊢
  rw [hr]
  simp only [Option.some_bind, onRequest_fst, onRequest_broadcasts, onRequest_writes,
    Option.some.injEq, System.mk.injEq, true_and]
  cases (handler { ID := r.ID, Msg := r.Msg, Data := r.Data }).err <;> simp [errorWrites]

theorem eraseIdx_map_pair (vals : List Value) (k : Nat) :
    (vals.map (fun v => ((0 : HubPtr), v))).eraseIdx k =
      (vals.eraseIdx k).map (fun v => ((0 : HubPtr), v)) := by
  induction vals generalizing k with
  | nil => rfl
  | cons v tl ih =>
    cases k with
    | zero => rfl
    | succ n => simp [List.eraseIdx, ih]

theorem perm_cons_eraseIdx_of_get (vals : List Value) (k : Nat) (v : Value)
    (hk : vals[k]? = some v) : (v :: vals.eraseIdx k).Perm vals := by
  induction vals generalizing k with
  | nil => simp at hk
  | cons x tl ih =>
    cases k with
    | zero =>
      simp only [List.getElem?_cons_zero, Option.some.injEq] at hk
      subst hk
      simp
    | succ n =>
      simp only [List.getElem?_cons_succ] at hk
      simp only [List.eraseIdx_cons_succ]
      exact (List.Perm.swap x v _).trans ((ih n hk).cons x)

theorem broadcast_group (handler : Handler) (id : String) (cs : List ConnPtr)
    (vals : List Value) (t : List Obs) (k : Nat) (s' : System)
    (hs : step handler (.broadcast k) (groupState handler id cs vals t) = some s') :
    ∃ v, vals[k]? = some v ∧
      s' = groupState handler id cs (vals.eraseIdx k) (t ++ fanOut 0 cs v) := by
  obtain ⟨h, v, hub, hp, hr, he⟩ := step_broadcast_cases handler _ s' k hs
  simp only [groupState, List.getElem?_map] at hp
  cases hv : vals[k]? with
  | none =>
    rw [hv] at hp
    exact absurd hp (by simp)
  | some w =>
    rw [hv] at hp
    simp only [Option.map_some', Option.some.injEq, Prod.mk.injEq] at hp
    obtain ⟨h0, hw⟩ := hp
    subst h0 hw
    have hr2 : (groupState handler id cs vals t).ready 0 =
        some { ID := id, Connections := cs, Handler := handler, sendingEmpty := false } := rfl
    rw [hr2] at hr
    simp only [Option.some.injEq] at hr
    subst hr
    refine ⟨w, rfl, ?_⟩
    rw [he]
    simp [groupState, eraseIdx_map_pair, ClientHub.onBroadcast, fanOut, List.map_map,
      Function.comp_def]

/-- Whatever the order in which the blocked broadcasts of the group are
received, the log grows by one whole fan-out per value received, and the
values received together with those still blocked are the values that were
blocked. -/
theorem drain_group (handler : Handler) (id : String) (cs : List ConnPtr) (ks : List Nat)
    (vals : List Value) (t : List Obs) (s' : System)
    (hs : run handler (ks.map .broadcast) (groupState handler id cs vals t) = some s') :
    ∃ order rest, s' = groupState handler id cs rest (t ++ order.flatMap (fanOut 0 cs)) ∧
      (order ++ rest).Perm vals := by
  induction ks generalizing vals t with
  | nil =>
    simp only [List.map_nil, run, Option.some.injEq] at hs
    exact ⟨[], vals, by simp [← hs], by simp⟩
  | cons k tl ih =>
    simp only [List.map_cons, run] at hs
    cases h1 : step handler (.broadcast k) (groupState handler id cs vals t) with
    | none =>
      rw [h1] at hs
      exact absurd hs (by simp)
    | some s1 =>
      rw [h1] at hs
      simp only [Option.some_bind] at hs
      obtain ⟨v, hv, he⟩ := broadcast_group handler id cs vals t k s1 h1
      rw [he] at hs
      obtain ⟨order, rest, hs', hperm⟩ := ih _ _ hs
      refine ⟨v :: order, rest, ?_, ?_⟩
      · rw [hs']
        simp [List.flatMap_cons]
      · exact ((hperm.cons v).trans (perm_cons_eraseIdx_of_get vals k v hv))

/-- Receiving the oldest blocked broadcast again and again empties the queue. -/
theorem drain_group_fifo (handler : Handler) (id : String) (cs : List ConnPtr)
    (vals : List Value) (t : List Obs) :
    run handler (List.replicate vals.length (.broadcast 0)) (groupState handler id cs vals t) =
      some (groupState handler id cs [] (t ++ vals.flatMap (fanOut 0 cs))) := by
  induction vals generalizing t with
  | nil => simp [run]
  | cons v tl ih =>
    have h1 : step handler (.broadcast 0) (groupState handler id cs (v :: tl) t) =
        some (groupState handler id cs tl (t ++ fanOut 0 cs v)) := by
      rw [step_broadcast_eq handler (groupState handler id cs (v :: tl) t) 0 0 v
        { ID := id, Connections := cs, Handler := handler, sendingEmpty := false }
        (by simp [groupState]) rfl]
      simp [groupState]
    simp only [List.length_cons, List.replicate_succ, run, h1, Option.some_bind, ih]
    simp [List.flatMap_cons]

theorem writesTo_fanOut_of_not_mem (h : HubPtr) (c : ConnPtr) (v : Value) (cs : List ConnPtr)
    (hc : c ∉ cs) : writesTo c (fanOut h cs v) = [] := by
  induction cs with
  | nil => rfl
  | cons x tl ih =>
    have hx : x ≠ c := fun e => hc (e ▸ List.mem_cons_self x tl)
    have htl : c ∉ tl := fun e => hc (List.mem_cons_of_mem x e)
    have := ih htl
    simp only [fanOut] at this ⊢
    simp [writesTo, hx, this]

theorem writesTo_fanOut_of_mem (h : HubPtr) (c : ConnPtr) (v : Value) (cs : List ConnPtr)
    (hnd : cs.Nodup) (hc : c ∈ cs) : writesTo c (fanOut h cs v) = [v] := by
  induction cs with
  | nil => simp at hc
  | cons x tl ih =>
    have hnd2 := List.nodup_cons.mp hnd
    by_cases hx : x = c
    · subst hx
      have := writesTo_fanOut_of_not_mem h x v tl hnd2.1
      simp only [fanOut] at this ⊢
      simp [writesTo, this]
    · have hc2 : c ∈ tl := by
        rcases List.mem_cons.mp hc with e | e
        · exact absurd e.symm hx
        · exact e
      have := ih hnd2.2 hc2
      simp only [fanOut] at this ⊢
      simp [writesTo, hx, this]

theorem writesTo_fanOuts (h : HubPtr) (c : ConnPtr) (cs : List ConnPtr) (hnd : cs.Nodup)
    (hc : c ∈ cs) (order : List Value) :
    writesTo c (order.flatMap (fanOut h cs)) = order := by
  induction order with
  | nil => rfl
  | cons v tl ih =>
    rw [List.flatMap_cons, writesTo_append, writesTo_fanOut_of_mem h c v cs hnd hc, ih]
    rfl

theorem calls_fanOut (h : HubPtr) (cs : List ConnPtr) (v : Value) :
    calls (fanOut h cs v) = [] := by
  induction cs with
  | nil => rfl
  | cons x xs ihx =>
    simp only [fanOut] at ihx ⊢
    simp [calls, ihx]

theorem calls_fanOuts (h : HubPtr) (cs : List ConnPtr) (order : List Value) :
    calls (order.flatMap (fanOut h cs)) = [] := by
  induction order with
  | nil => rfl
  | cons v tl ih =>
    rw [List.flatMap_cons, calls_append, ih, calls_fanOut]
    rfl

theorem calls_errorWrites (h : HubPtr) (c : ConnPtr) (e : Option String) :
    calls (errorWrites h c e) = [] := by
  cases e <;> rfl

theorem members_groupState (handler : Handler) (id : String) (cs : List ConnPtr)
    (vals : List Value) (t : List Obs) : (groupState handler id cs vals t).members id = cs := by
  simp [System.members, groupState, lookup]

/-- C1: starting from the empty main hub, register the distinct connections
`cs` (at least one) under `id`, then submit one message `(id, payload, context,
ci)`.  The Handler is called exactly once, with `id`, `payload` and `context`
as submitted, and its broadcasts are blocked on the hub of the group.  They can
all be received; and whatever the order in which they are, once none is left
the Handler has still been called once, the members of the group are still
`cs`, and each connection of `cs` has been written each broadcast value exactly
once: the values written to it after the message was handled are a
rearrangement of the values the Handler broadcast. -/
theorem one_message_one_call_fanned_out (handler : Handler) (id : String)
    (cs : List ConnPtr) (payload : Bytes) (context : Value) (ci : ConnPtr)
    (hne : cs ≠ []) (hnd : cs.Nodup) :
    ∃ s, run handler
        (registerAll id cs ++
          [.request { ID := id, Msg := payload, Data := context, Conn := ci }, .forward])
        NewMainHub = some s ∧
      s.trace = Obs.call 0 { ID := id, Msg := payload, Data := context } ::
        errorWrites 0 ci (handler { ID := id, Msg := payload, Data := context }).err ∧
      calls s.trace = [{ ID := id, Msg := payload, Data := context }] ∧
      s.members id = cs ∧
      s.pending.map Prod.snd = (handler { ID := id, Msg := payload, Data := context }).broadcasts ∧
      (∃ s', run handler
          (List.replicate (handler { ID := id, Msg := payload, Data := context }).broadcasts.length
            (.broadcast 0)) s = some s' ∧ s'.pending = []) ∧
      ∀ (ks : List Nat) (s' : System),
        run handler (ks.map .broadcast) s = some s' → s'.pending = [] →
        calls s'.trace = [{ ID := id, Msg := payload, Data := context }] ∧
        s'.members id = cs ∧
        ∃ order, order.Perm (handler { ID := id, Msg := payload, Data := context }).broadcasts ∧
          s'.trace = s.trace ++ order.flatMap (fanOut 0 cs) ∧
          ∀ c ∈ cs, writesTo c s'.trace = writesTo c s.trace ++ order := by
  refine ⟨groupState handler id cs
    (handler { ID := id, Msg := payload, Data := context }).broadcasts
    (Obs.call 0 { ID := id, Msg := payload, Data := context } ::
      errorWrites 0 ci (handler { ID := id, Msg := payload, Data := context }).err),
    ?_, rfl, ?_, members_groupState _ _ _ _ _, ?_, ?_, ?_⟩
  · rw [run_append, registerAll_init handler id cs hne hnd, Option.some_bind]
    exact request_group handler cs { ID := id, Msg := payload, Data := context, Conn := ci }
  · simp [groupState, calls, calls_errorWrites]
  · simp [groupState, List.map_map, Function.comp_def]
  · exact ⟨_, drain_group_fifo handler id cs _ _, rfl⟩
  · intro ks s' hs hp
    obtain ⟨order, rest, he, hperm⟩ := drain_group handler id cs ks _ _ s' hs
    have hrest : rest = [] := by
      rw [he] at hp
      simpa [groupState] using hp
    subst hrest
    rw [List.append_nil] at hperm
    rw [he]
    refine ⟨?_, members_groupState _ _ _ _ _, order, hperm, rfl, ?_⟩
    · simp [groupState, calls, calls_append, calls_errorWrites, calls_fanOuts]
    · intro c hc
      show writesTo c (_ ++ _) = _
      rw [writesTo_append, writesTo_fanOuts 0 c cs hnd hc]
      rfl

/-- C1 on the scenario of the specification: group `"u1"` with connections 1
and 2, the message `{"hello":1}` from connection 1, and a Handler that adds the
group identifier and broadcasts: both connections are written
`{"hello":1,"id":"u1"}`, once. -/
theorem one_message_one_call_fanned_out_witness :
    [1, 2] ≠ ([] : List ConnPtr) ∧ [1, 2].Nodup ∧
      ∃ s s', run echoWithID
          (registerAll "u1" [1, 2] ++
            [.request { ID := "u1", Msg := bytesOf "\x7b\"hello\":1\x7d", Data := .nil, Conn := 1 },
              .forward])
          NewMainHub = some s ∧
        run echoWithID [.broadcast 0] s = some s' ∧
        calls s'.trace = [{ ID := "u1", Msg := bytesOf "\x7b\"hello\":1\x7d", Data := .nil }] ∧
        writesTo 1 s'.trace = [.raw (bytesOf "\x7b\"hello\":1,\"id\":\"u1\"\x7d")] ∧
        writesTo 2 s'.trace = [.raw (bytesOf "\x7b\"hello\":1,\"id\":\"u1\"\x7d")] := by
  refine ⟨by decide, by decide, ?_⟩
  obtain ⟨s, hs, ht, _, _, _, _, hall⟩ :=
    one_message_one_call_fanned_out echoWithID "u1" [1, 2]
      (bytesOf "\x7b\"hello\":1\x7d") .nil 1 (by decide) (by decide)
  have hs0 : run echoWithID
      (registerAll "u1" [1, 2] ++
        [.request { ID := "u1", Msg := bytesOf "\x7b\"hello\":1\x7d", Data := .nil, Conn := 1 },
          .forward])
      NewMainHub = some (groupState echoWithID "u1" [1, 2]
        [.raw (bytesOf "\x7b\"hello\":1,\"id\":\"u1\"\x7d")]
        [.call 0 { ID := "u1", Msg := bytesOf "\x7b\"hello\":1\x7d", Data := .nil }]) := rfl
  have hse := Option.some.inj (hs.symm.trans hs0)
  subst hse
  have hs1 : run echoWithID [.broadcast 0] (groupState echoWithID "u1" [1, 2]
        [.raw (bytesOf "\x7b\"hello\":1,\"id\":\"u1\"\x7d")]
        [.call 0 { ID := "u1", Msg := bytesOf "\x7b\"hello\":1\x7d", Data := .nil }]) =
      some (groupState echoWithID "u1" [1, 2] []
        (.call 0 { ID := "u1", Msg := bytesOf "\x7b\"hello\":1\x7d", Data := .nil } ::
          fanOut 0 [1, 2] (.raw (bytesOf "\x7b\"hello\":1,\"id\":\"u1\"\x7d")))) := rfl
  obtain ⟨hc, _, order, hperm, _, hw⟩ := hall [0] _ hs1 rfl
  have ho : order = [.raw (bytesOf "\x7b\"hello\":1,\"id\":\"u1\"\x7d")] :=
    List.perm_singleton.mp hperm
  subst ho
  exact ⟨_, _, hs0, hs1, hc, hw 1 (by decide), hw 2 (by decide)⟩

/-! ## Members are registered connections -/

theorem live_split (id : String) (c : ConnPtr) (acts : List Action)
    (hl : live id c acts = true) :
    ∃ pre post, acts = pre ++ Action.register { ID := id, Conn := c } :: post ∧
      Action.close { ID := id, Conn := c } ∉ post := by
  induction acts using List.reverseRecOn with
  | nil => simp [live] at hl
  | append_singleton as a ih =>
    rw [live_snoc] at hl
    cases a with
    | register x =>
      simp only at hl
      by_cases hx : x = ⟨id, c⟩
      · subst hx
        exact ⟨as, [], rfl, by simp⟩
      · rw [if_neg hx] at hl
        obtain ⟨pre, post, he, hn⟩ := ih hl
        refine ⟨pre, post ++ [.register x], by simp [he], ?_⟩
        simp [hn]
    | close x =>
      simp only at hl
      by_cases hx : x = ⟨id, c⟩
      · rw [if_pos hx] at hl
        exact absurd hl (by simp)
      · rw [if_neg hx] at hl
        obtain ⟨pre, post, he, hn⟩ := ih hl
        refine ⟨pre, post ++ [.close x], by simp [he], ?_⟩
        simp only [List.mem_append, List.mem_singleton, Action.close.injEq, not_or]
        exact ⟨hn, fun e => hx e.symm⟩
    | request r =>
      obtain ⟨pre, post, he, hn⟩ := ih hl
      exact ⟨pre, post ++ [.request r], by simp [he], by simp [hn]⟩
    | forward =>
      obtain ⟨pre, post, he, hn⟩ := ih hl
      exact ⟨pre, post ++ [.forward], by simp [he], by simp [hn]⟩
    | empty h =>
      obtain ⟨pre, post, he, hn⟩ := ih hl
      exact ⟨pre, post ++ [.empty h], by simp [he], by simp [hn]⟩
    | broadcast k =>
      obtain ⟨pre, post, he, hn⟩ := ih hl
      exact ⟨pre, post ++ [.broadcast k], by simp [he], by simp [hn]⟩

theorem live_mem_register (id : String) (c : ConnPtr) (acts : List Action)
    (hl : live id c acts = true) : Action.register { ID := id, Conn := c } ∈ acts := by
  obtain ⟨pre, post, he, _⟩ := live_split id c acts hl
  rw [he]
  simp

theorem step_hubs_main (handler : Handler) (a : Action) (s s' : System)
    (hs : step handler a s = some s')
    (ha : (∃ c, a = .register c) ∨ (∃ r, a = .request r) ∨ (∃ c, a = .close c)) :
    s'.hubs = s.hubs ∨ ∃ id, s'.hubs = s.hubs ++ [NewClientHub id handler] := by
  rcases ha with ⟨c, rfl⟩ | ⟨r, rfl⟩ | ⟨c, rfl⟩
  · unfold step at hs
    simp only at hs
    cases hpc : s.pc <;> rw [hpc] at hs <;> simp only at hs
    case sendRegister => exact absurd hs (by simp)
    case sendRequest => exact absurd hs (by simp)
    case sendClose => exact absurd hs (by simp)
    cases hl : lookup c.ID s.Clients <;> rw [hl] at hs <;>
      simp only [Option.some.injEq] at hs <;> subst hs
    · exact Or.inr ⟨c.ID, rfl⟩
    · exact Or.inl rfl
  · unfold step at hs
    simp only at hs
    cases hpc : s.pc <;> rw [hpc] at hs <;> simp only at hs
    case sendRegister => exact absurd hs (by simp)
    case sendRequest => exact absurd hs (by simp)
    case sendClose => exact absurd hs (by simp)
    cases hl : lookup r.ID s.Clients <;> rw [hl] at hs <;>
      simp only [Option.some.injEq] at hs <;> subst hs
    · exact Or.inl rfl
    · exact Or.inl rfl
  · unfold step at hs
    simp only at hs
    cases hpc : s.pc <;> rw [hpc] at hs <;> simp only at hs
    case sendRegister => exact absurd hs (by simp)
    case sendRequest => exact absurd hs (by simp)
    case sendClose => exact absurd hs (by simp)
    cases hl : lookup c.ID s.Clients <;> rw [hl] at hs <;>
      simp only [Option.some.injEq] at hs <;> subst hs
    · exact Or.inl rfl
    · exact Or.inl rfl

/-- A connection is in a hub after a transition only if it was before, or the
transition is the hub receiving its registration. -/
theorem step_member_origin (handler : Handler) (a : Action) (s s' : System)
    (hs : step handler a s = some s') (h : HubPtr) (hub' : ClientHub) (c : ConnPtr)
    (hh : s'.hubs[h]? = some hub') (hc : c ∈ hub'.Connections) :
    (∃ hub, s.hubs[h]? = some hub ∧ hub.ID = hub'.ID ∧ c ∈ hub.Connections) ∨
      (∃ x hub, s.pc = .sendRegister h x ∧ x.Conn = c ∧ s.hubs[h]? = some hub ∧
        hub.ID = hub'.ID) := by
  have hmain : ((∃ c, a = .register c) ∨ (∃ r, a = .request r) ∨ (∃ c, a = .close c)) →
      (∃ hub, s.hubs[h]? = some hub ∧ hub.ID = hub'.ID ∧ c ∈ hub.Connections) := by
    intro ha
    rcases step_hubs_main handler a s s' hs ha with he | ⟨id, he⟩
    · rw [he] at hh
      exact ⟨hub', hh, rfl, hc⟩
    · rw [he, get_snoc] at hh
      split at hh
      · simp only [Option.some.injEq] at hh
        subst hh
        simp [NewClientHub] at hc
      · exact ⟨hub', hh, rfl, hc⟩
  cases a with
  | register x => exact Or.inl (hmain (Or.inl ⟨x, rfl⟩))
  | request r => exact Or.inl (hmain (Or.inr (Or.inl ⟨r, rfl⟩)))
  | close x => exact Or.inl (hmain (Or.inr (Or.inr ⟨x, rfl⟩)))
  | forward =>
    rcases step_forward_cases handler s s' hs with
      ⟨h0, x, hub0, hpc, hr, he⟩ | ⟨h0, r, hub0, hpc, hr, he⟩ | ⟨h0, x, hub0, hpc, hr, he⟩
    · obtain ⟨hh0, _⟩ := (ready_some s h0 hub0).mp hr
      rw [he] at hh
      simp only at hh
      rw [get_set _ _ _ _ _ hh0] at hh
      by_cases hk : h = h0
      · subst hk
        simp only [if_true, Option.some.injEq] at hh
        subst hh
        rcases (mem_addConn _ _ _).mp hc with e | e
        · exact Or.inr ⟨x, hub0, hpc, e.symm, hh0, rfl⟩
        · exact Or.inl ⟨hub0, hh0, rfl, e⟩
      · simp only [hk, if_false] at hh
        exact Or.inl ⟨hub', hh, rfl, hc⟩
    · rw [he] at hh
      exact Or.inl ⟨hub', hh, rfl, hc⟩
    · obtain ⟨hh0, _⟩ := (ready_some s h0 hub0).mp hr
      rw [he] at hh
      simp only at hh
      rw [get_set _ _ _ _ _ hh0] at hh
      by_cases hk : h = h0
      · subst hk
        simp only [if_true, Option.some.injEq] at hh
        subst hh
        exact Or.inl ⟨hub0, hh0, rfl, ((mem_delConn _ _ _).mp hc).1⟩
      · simp only [hk, if_false] at hh
        exact Or.inl ⟨hub', hh, rfl, hc⟩
  | empty h0 =>
    obtain ⟨hub0, hpc, hh0, hb, he⟩ := step_empty_cases handler s s' h0 hs
    rw [he] at hh
    simp only at hh
    rw [get_set _ _ _ _ _ hh0] at hh
    by_cases hk : h = h0
    · subst hk
      simp only [if_true, Option.some.injEq] at hh
      subst hh
      exact Or.inl ⟨hub0, hh0, rfl, hc⟩
    · simp only [hk, if_false] at hh
      exact Or.inl ⟨hub', hh, rfl, hc⟩
  | broadcast k =>
    obtain ⟨h0, v, hub0, hp, hr, he⟩ := step_broadcast_cases handler s s' k hs
    rw [he] at hh
    exact Or.inl ⟨hub', hh, rfl, hc⟩

/-- Every connection of a hub was registered under the identifier of the hub. -/
theorem registered_run (handler : Handler) (acts : List Action) (s : System)
    (hr : run handler acts NewMainHub = some s) (h : HubPtr) (hub : ClientHub) (c : ConnPtr)
    (hh : s.hubs[h]? = some hub) (hc : c ∈ hub.Connections) :
    Action.register { ID := hub.ID, Conn := c } ∈ acts := by
  induction acts using List.reverseRecOn generalizing s hub with
  | nil =>
    simp only [run, Option.some.injEq] at hr
    subst hr
    simp [NewMainHub] at hh
  | append_singleton as a ih =>
    rw [run_snoc] at hr
    cases hm : run handler as NewMainHub with
    | none =>
      rw [hm] at hr
      exact absurd hr (by simp)
    | some m =>
      rw [hm] at hr
      simp only [Option.some_bind] at hr
      rcases step_member_origin handler a m s hr h hub c hh hc with
        ⟨hub0, hh0, hid, hc0⟩ | ⟨x, hub0, hpc, hx, hh0, hid⟩
      · have := ih m hm hub0 hh0 hc0
        rw [hid] at this
        exact List.mem_append_left _ this
      · have hi := inv_run handler as m hm
        obtain ⟨hlk, hlv⟩ := hi.pcReg h x hpc
        obtain ⟨hubm, hhm, hidm⟩ := hi.mapped x.ID h hlk
        rw [hh0] at hhm
        simp only [Option.some.injEq] at hhm
        subst hhm
        have := live_mem_register x.ID x.Conn as hlv
        rw [← hid, hidm, ← hx]
        exact List.mem_append_left _ this

/-- C4: in every reachable state, (1) a request under `A` is handed by the main
hub only to a hub whose identifier is `A`, or dropped; (2) the hub that
receives it calls the Handler with identifier `A` and the values broadcast are
blocked on that hub; (3) every Handler call so far was made by a hub carrying
the identifier of the request; (4) every blocked broadcast was started by a
Handler call of its hub, for a request under the identifier of that hub, and
receiving it writes the value to the connections of that hub and to nothing
else; each of them was registered under that identifier, so a connection
registered only under another identifier `B` is not written. -/
theorem messages_stay_in_their_group (handler : Handler) (acts : List Action) (s : System)
    (hrun : run handler acts NewMainHub = some s) :
    (∀ (r : request) (s1 : System), step handler (.request r) s = some s1 →
        s1 = s ∨ ∃ h hub, s1.pc = .sendRequest h r ∧ s1.hubs[h]? = some hub ∧ hub.ID = r.ID) ∧
      (∀ (h : HubPtr) (r : request) (s2 : System), s.pc = .sendRequest h r →
        step handler .forward s = some s2 →
        ∃ hub, s.hubs[h]? = some hub ∧ hub.ID = r.ID ∧
          s2.trace = s.trace ++ Obs.call h { ID := r.ID, Msg := r.Msg, Data := r.Data } ::
            errorWrites h r.Conn (handler { ID := r.ID, Msg := r.Msg, Data := r.Data }).err ∧
          s2.pending = s.pending ++
            (handler { ID := r.ID, Msg := r.Msg, Data := r.Data }).broadcasts.map
              (fun v => (h, v))) ∧
      (∀ (h : HubPtr) (req : Request), Obs.call h req ∈ s.trace →
        ∃ hub, s.hubs[h]? = some hub ∧ hub.ID = req.ID) ∧
      (∀ (k : Nat) (h : HubPtr) (v : Value), s.pending[k]? = some (h, v) →
        ∃ hub req, s.hubs[h]? = some hub ∧ Obs.call h req ∈ s.trace ∧ req.ID = hub.ID ∧
          v ∈ (handler req).broadcasts ∧
          (∀ s', step handler (.broadcast k) s = some s' →
            s'.trace = s.trace ++ fanOut h hub.Connections v) ∧
          (∀ c ∈ hub.Connections, Action.register { ID := hub.ID, Conn := c } ∈ acts) ∧
          (∀ (B : String) (c : ConnPtr), B ≠ hub.ID →
            (∀ id, Action.register { ID := id, Conn := c } ∈ acts → id = B) →
            c ∉ hub.Connections)) := by
  have hi := inv_run handler acts s hrun
  refine ⟨?_, ?_, hi.callID, ?_⟩
  · intro r s1 hs
    have hi1 := inv_request handler acts s s1 r hi hs
    unfold step at hs
    simp only at hs
    cases hpc : s.pc <;> rw [hpc] at hs <;> simp only at hs
    case sendRegister => exact absurd hs (by simp)
    case sendRequest => exact absurd hs (by simp)
    case sendClose => exact absurd hs (by simp)
    cases hl : lookup r.ID s.Clients <;> rw [hl] at hs <;>
      simp only [Option.some.injEq] at hs <;> subst hs
    · exact Or.inl rfl
    · rename_i h0
      right
      obtain ⟨hub, hh, hid⟩ := hi.mapped r.ID h0 hl
      exact ⟨h0, hub, rfl, hh, hid⟩
  · intro h r s2 hpc hs
    rcases step_forward_cases handler s s2 hs with
      ⟨h0, x, hub0, hpc0, hr, he⟩ | ⟨h0, r0, hub0, hpc0, hr, he⟩ | ⟨h0, x, hub0, hpc0, hr, he⟩
    · rw [hpc] at hpc0
      exact absurd hpc0 (by simp)
    · rw [hpc] at hpc0
      simp only [MainPC.sendRequest.injEq] at hpc0
      obtain ⟨e1, e2⟩ := hpc0
      subst e1 e2
      obtain ⟨hh0, _⟩ := (ready_some s h hub0).mp hr
      obtain ⟨hubm, hhm, hidm⟩ := hi.mapped r.ID h (hi.pcReq h r hpc)
      rw [hh0] at hhm
      simp only [Option.some.injEq] at hhm
      subst hhm
      refine ⟨hub0, hh0, hidm, ?_, ?_⟩
      · rw [he]
        simp only [onRequest_fst, onRequest_writes, hi.bound h hub0 hh0]
        cases (handler { ID := r.ID, Msg := r.Msg, Data := r.Data }).err <;>
          simp [errorWrites]
      · rw [he]
        simp only [onRequest_broadcasts, hi.bound h hub0 hh0]
    · rw [hpc] at hpc0
      exact absurd hpc0 (by simp)
  · intro k h v hp
    have hmem : (h, v) ∈ s.pending := List.mem_iff_getElem?.mpr ⟨k, hp⟩
    obtain ⟨req, hcall, hv⟩ := hi.prov h v hmem
    obtain ⟨hub, hh, hid⟩ := hi.callID h req hcall
    have hreg : ∀ c ∈ hub.Connections, Action.register { ID := hub.ID, Conn := c } ∈ acts :=
      fun c hc => registered_run handler acts s hrun h hub c hh hc
    refine ⟨hub, req, hh, hcall, hid.symm, hv, ?_, hreg, ?_⟩
    · intro s' hs
      obtain ⟨h1, v1, hub1, hp1, hr1, he⟩ := step_broadcast_cases handler s s' k hs
      rw [hp] at hp1
      simp only [Option.some.injEq, Prod.mk.injEq] at hp1
      obtain ⟨e1, e2⟩ := hp1
      subst e1 e2
      obtain ⟨hh1, _⟩ := (ready_some s h hub1).mp hr1
      rw [hh] at hh1
      simp only [Option.some.injEq] at hh1
      subst hh1
      rw [he]
      simp [ClientHub.onBroadcast, fanOut, List.map_map, Function.comp_def]
    · intro B c hB honly hc
      exact hB (honly hub.ID (hreg c hc)).symm

/-- C4 on two groups: a message under `"u1"` was handled and its first
broadcast is blocked on the hub of `"u1"`; connection 2, registered only under
`"u2"`, is not among the connections it is written to. -/
theorem messages_stay_in_their_group_witness :
    run twoBroadcasts
        (registerAll "u1" [1] ++ registerAll "u2" [2] ++
          [.request { ID := "u1", Msg := [], Data := .nil, Conn := 1 }, .forward])
        NewMainHub = some twoGroups ∧
      ∃ hub, twoGroups.hubs[0]? = some hub ∧ 2 ∉ hub.Connections ∧
        ∀ s', step twoBroadcasts (.broadcast 0) twoGroups = some s' →
          s'.trace = twoGroups.trace ++ fanOut 0 hub.Connections (.str "first") := by
  have hrun : run twoBroadcasts
      (registerAll "u1" [1] ++ registerAll "u2" [2] ++
        [.request { ID := "u1", Msg := [], Data := .nil, Conn := 1 }, .forward])
      NewMainHub = some twoGroups := rfl
  refine ⟨hrun, ?_⟩
  obtain ⟨hub, req, hh, _, _, _, hfan, _, hB⟩ :=
    (messages_stay_in_their_group twoBroadcasts _ twoGroups hrun).2.2.2 0 0 (.str "first") rfl
  refine ⟨hub, hh, ?_, hfan⟩
  apply hB "u2" 2
  · have hh2 : twoGroups.hubs[0]? = some hub := hh
    simp only [twoGroups, List.getElem?_cons_zero, Option.some.injEq] at hh2
    rw [← hh2]
    decide
  · intro id hid
    simp [registerAll] at hid
    exact hid

/-! ## A group whose connections are all closed -/

theorem quiescent_iff (s : System) :
    s.quiescent = true ↔
      s.pc = .select ∧ ∀ (h : HubPtr) (hub : ClientHub), s.hubs[h]? = some hub →
        hub.sendingEmpty = false := by
  unfold System.quiescent
  simp only [Bool.and_eq_true, decide_eq_true_eq, List.all_eq_true, Bool.not_eq_true']
  constructor
  · rintro ⟨h1, h2⟩
    exact ⟨h1, fun h hub hh => h2 hub (List.mem_iff_getElem?.mpr ⟨h, hh⟩)⟩
  · rintro ⟨h1, h2⟩
    refine ⟨h1, fun hub hm => ?_⟩
    obtain ⟨h, hh⟩ := List.mem_iff_getElem?.mp hm
    exact h2 h hub hh

/-- In a reachable state where every loop is at its `select`, an identifier none
of whose connections is live is not mapped. -/
theorem unmapped_of_not_live (handler : Handler) (acts : List Action) (s : System)
    (id : String) (hi : Inv handler acts s) (hq : s.quiescent = true)
    (hl : ∀ c, live id c acts = false) : lookup id s.Clients = none := by
  obtain ⟨hpc, hflags⟩ := (quiescent_iff s).mp hq
  cases hlk : lookup id s.Clients with
  | none => rfl
  | some p =>
    exfalso
    obtain ⟨hub, hh, hid⟩ := hi.mapped id p hlk
    have hb := hflags p hub hh
    cases hcs : hub.Connections with
    | nil =>
      rcases hi.nonempty p hub hh (by rw [hid]; exact hlk) hcs with hb2 | ⟨c, hp⟩
      · rw [hb] at hb2
        exact absurd hb2 (by simp)
      · rw [hpc] at hp
        exact absurd hp (by simp)
    | cons c rest =>
      have hc : c ∈ hub.Connections := by rw [hcs]; exact List.mem_cons_self c rest
      rcases hi.member p hub c hh hc with hlv | hp
      · rw [hid, hl c] at hlv
        exact absurd hlv (by simp)
      · rw [hpc] at hp
        exact absurd hp (by simp)

theorem not_live_of_closed (id : String) (acts : List Action)
    (hc : ∀ c pre post, acts = pre ++ Action.register { ID := id, Conn := c } :: post →
      Action.close { ID := id, Conn := c } ∈ post) :
    ∀ c, live id c acts = false := by
  intro c
  cases hl : live id c acts with
  | false => rfl
  | true =>
    obtain ⟨pre, post, he, hn⟩ := live_split id c acts hl
    exact absurd (hc c pre post he) hn

theorem not_live_of_closed_ops (id : String) (ops : List Op)
    (hc : ∀ c pre post, ops = pre ++ Op.Register { ID := id, Conn := c } :: post →
      Op.Close { ID := id, Conn := c } ∈ post) :
    ∀ c, live id c (ops.map Op.action) = false := by
  apply not_live_of_closed
  intro c pre post he
  obtain ⟨l1, l2, hl, h1, h2⟩ := List.map_eq_append_iff.mp he
  cases l2 with
  | nil => simp at h2
  | cons o l3 =>
    simp only [List.map_cons, List.cons.injEq] at h2
    obtain ⟨ho, h3⟩ := h2
    have ho2 : o = Op.Register { ID := id, Conn := c } := by
      cases o with
      | Register x =>
        simp only [Op.action, Action.register.injEq] at ho
        rw [ho]
      | Request r => simp [Op.action] at ho
      | Close x => simp [Op.action] at ho
    subst ho2
    have := hc c l1 l3 hl
    rw [← h3]
    exact List.mem_map.mpr ⟨_, this, rfl⟩

theorem live_append_neutral (id : String) (c : ConnPtr) (as bs : List Action)
    (hb : ∀ b ∈ bs, b = Action.forward ∨ ∃ h, b = Action.empty h) :
    live id c (as ++ bs) = live id c as := by
  induction bs using List.reverseRecOn with
  | nil => simp
  | append_singleton bs b ih =>
    rw [← List.append_assoc, live_snoc]
    have hbs : ∀ x ∈ bs, x = Action.forward ∨ ∃ h, x = Action.empty h :=
      fun x hx => hb x (List.mem_append_left _ hx)
    rcases hb b (by simp) with e | ⟨h, e⟩
    · subst e
      exact ih hbs
    · subst e
      exact ih hbs

theorem completion_neutral (s : System) :
    ∀ b ∈ completion s, b = Action.forward ∨ ∃ h, b = Action.empty h := by
  intro b hb
  unfold completion at hb
  split at hb
  · simp at hb
  · simp only [List.mem_singleton] at hb
    exact Or.inl hb
  · simp only [List.mem_singleton] at hb
    exact Or.inl hb
  · split at hb
    · split at hb
      · simp only [List.mem_cons, List.mem_singleton, List.not_mem_nil, or_false] at hb
        rcases hb with e | e
        · exact Or.inl e
        · exact Or.inr ⟨_, e⟩
      · simp only [List.mem_singleton] at hb
        exact Or.inl hb
    · simp only [List.mem_singleton] at hb
      exact Or.inl hb

theorem processAll_snoc (handler : Handler) (ops : List Op) (op : Op) (s : System) :
    processAll handler (ops ++ [op]) s =
      (processAll handler ops s).bind (process handler op) := by
  induction ops generalizing s with
  | nil =>
    simp only [List.nil_append, processAll, Option.some_bind]
    cases process handler op s <;> rfl
  | cons o rest ih =>
    simp only [List.cons_append, processAll]
    cases process handler o s with
    | none => rfl
    | some s1 => simpa using ih s1

theorem process_close_mapped (handler : Handler) (s : System) (c : Conn) (p : HubPtr)
    (hub : ClientHub) (hpc : s.pc = .select) (hl : lookup c.ID s.Clients = some p)
    (hr : s.ready p = some hub) :
    process handler (.Close c) s =
      some (if (hub.onClose c).sendingEmpty then
        { s with
          Clients := remove hub.ID s.Clients
          hubs := s.hubs.set p { hub.onClose c with sendingEmpty := false } }
      else { s with hubs := s.hubs.set p (hub.onClose c) }) := by
  obtain ⟨hh, hb⟩ := (ready_some s p hub).mp hr
  have hr2 : ({ s with pc := .sendClose p c } : System).ready p = some hub := hr
  have hget : (s.hubs.set p (hub.onClose c))[p]? = some (hub.onClose c) := by
    rw [get_set _ _ _ _ _ hh]
    simp
  simp only [process, Op.action, step, hpc, hl, completion, hh, Option.some_bind]
  cases hf : (hub.onClose c).sendingEmpty with
  | false =>
    simp only [Bool.false_eq_true, if_false, run, step, hr2, Option.some_bind]
  | true =>
    simp only [if_true, run, step, hr2, Option.some_bind, hget, hf, List.set_set]
    rfl

theorem process_eq_run (handler : Handler) (op : Op) (s s1 : System)
    (h1 : step handler op.action s = some s1) :
    process handler op s = run handler (op.action :: completion s1) s := by
  simp [process, run, h1]

theorem step_main_some (handler : Handler) (op : Op) (s : System) (hpc : s.pc = .select) :
    ∃ s1, step handler op.action s = some s1 := by
  cases op with
  | Register c =>
    cases hl : lookup c.ID s.Clients <;> simp [Op.action, step, hpc, hl]
  | Request r =>
    cases hl : lookup r.ID s.Clients <;> simp [Op.action, step, hpc, hl]
  | Close c =>
    cases hl : lookup c.ID s.Clients <;> simp [Op.action, step, hpc, hl]

/-- From a reachable state where every loop is at its `select`, an operation is
processed to completion, and every loop is at its `select` afterwards. -/
theorem process_quiescent (handler : Handler) (acts : List Action) (s : System) (op : Op)
    (hi : Inv handler acts s) (hq : s.quiescent = true) :
    ∃ s', process handler op s = some s' ∧ s'.quiescent = true := by
  obtain ⟨hpc, hflags⟩ := (quiescent_iff s).mp hq
  have hready : ∀ id p, lookup id s.Clients = some p → ∃ hub, s.ready p = some hub := by
    intro id p hl
    obtain ⟨hub, hh, _⟩ := hi.mapped id p hl
    exact ⟨hub, ready_of_get s p hub hh (hflags p hub hh)⟩
  cases op with
  | Register c =>
    cases hl : lookup c.ID s.Clients with
    | none =>
      refine ⟨_, process_register_new handler s c hpc hl, ?_⟩
      rw [quiescent_iff]
      refine ⟨hpc, ?_⟩
      intro h hub hh
      simp only at hh
      rw [get_snoc] at hh
      split at hh
      · simp only [Option.some.injEq] at hh
        rw [← hh]
        rfl
      · exact hflags h hub hh
    | some p =>
      obtain ⟨hub0, hr⟩ := hready c.ID p hl
      obtain ⟨hh0, hb0⟩ := (ready_some s p hub0).mp hr
      refine ⟨_, process_register_mapped handler s c p hub0 hpc hl hr, ?_⟩
      rw [quiescent_iff]
      refine ⟨hpc, ?_⟩
      intro h hub hh
      simp only at hh
      rw [get_set _ _ _ _ _ hh0] at hh
      split at hh
      · simp only [Option.some.injEq] at hh
        rw [← hh]
        exact hb0
      · exact hflags h hub hh
  | Request r =>
    cases hl : lookup r.ID s.Clients with
    | none => exact ⟨s, process_unmapped_request handler s r hpc hl, hq⟩
    | some p =>
      obtain ⟨hub0, hr⟩ := hready r.ID p hl
      refine ⟨_, process_request_mapped handler s r p hub0 hpc hl hr, ?_⟩
      rw [quiescent_iff]
      exact ⟨hpc, hflags⟩
  | Close c =>
    cases hl : lookup c.ID s.Clients with
    | none => exact ⟨s, process_unmapped_close handler s c hpc hl, hq⟩
    | some p =>
      obtain ⟨hub0, hr⟩ := hready c.ID p hl
      obtain ⟨hh0, hb0⟩ := (ready_some s p hub0).mp hr
      refine ⟨_, process_close_mapped handler s c p hub0 hpc hl hr, ?_⟩
      rw [quiescent_iff]
      cases hf : (hub0.onClose c).sendingEmpty with
      | true =>
        simp only [if_true]
        refine ⟨hpc, ?_⟩
        intro h hub hh
        rw [get_set _ _ _ _ _ hh0] at hh
        split at hh
        · simp only [Option.some.injEq] at hh
          rw [← hh]
        · exact hflags h hub hh
      | false =>
        simp only [Bool.false_eq_true, if_false]
        refine ⟨hpc, ?_⟩
        intro h hub hh
        rw [get_set _ _ _ _ _ hh0] at hh
        split at hh
        · simp only [Option.some.injEq] at hh
          rw [← hh]
          exact hf
        · exact hflags h hub hh

/-- Operations processed to completion one after the other from the empty
main hub always complete; the state they leave is reached by a schedule with
the same registrations and closes, and every loop is at its `select` in it. -/
theorem processAll_reaches (handler : Handler) (ops : List Op) :
    ∃ s acts, processAll handler ops NewMainHub = some s ∧
      run handler acts NewMainHub = some s ∧ s.quiescent = true ∧
      ∀ id c, live id c acts = live id c (ops.map Op.action) := by
  induction ops using List.reverseRecOn with
  | nil => exact ⟨NewMainHub, [], rfl, rfl, rfl, fun _ _ => rfl⟩
  | append_singleton ops op ih =>
    obtain ⟨s, acts, hp, hr, hq, hlive⟩ := ih
    have hi := inv_run handler acts s hr
    obtain ⟨s', hs', hq'⟩ := process_quiescent handler acts s op hi hq
    obtain ⟨s1, h1⟩ := step_main_some handler op s ((quiescent_iff s).mp hq).1
    refine ⟨s', acts ++ op.action :: completion s1, ?_, ?_, hq', ?_⟩
    · rw [processAll_snoc, hp, Option.some_bind]
      exact hs'
    · rw [run_append, hr, Option.some_bind, ← process_eq_run handler op s s1 h1]
      exact hs'
    · intro id c
      have e1 : acts ++ op.action :: completion s1 = (acts ++ [op.action]) ++ completion s1 := by
        simp
      rw [e1, live_append_neutral id c _ _ (completion_neutral s1), List.map_append,
        List.map_singleton, live_snoc, live_snoc, hlive id c]

/-- C2: any sequence of registrations, requests and closes, each processed to
completion by the main hub and the hubs (the empty signal of a close
included), completes and leaves every loop at its `select`; and when every
registration under `id` in the sequence is followed by a close of the same
connection under `id`, then `id` is not a key of `main.Clients` afterwards, so
that a request under `id` is dropped: it changes nothing, calls no Handler and
writes to no connection.  The same holds after any schedule whatever of the
program, broadcasts included, that leaves every loop at its `select`. -/
theorem closed_group_is_unmapped (handler : Handler) (id : String) :
    (∀ ops : List Op, ∃ s, processAll handler ops NewMainHub = some s ∧ s.quiescent = true ∧
        ((∀ c pre post, ops = pre ++ Op.Register { ID := id, Conn := c } :: post →
            Op.Close { ID := id, Conn := c } ∈ post) →
          lookup id s.Clients = none ∧
          ∀ msg data conn,
            process handler (.Request { ID := id, Msg := msg, Data := data, Conn := conn }) s =
              some s)) ∧
      (∀ (acts : List Action) (s : System), run handler acts NewMainHub = some s →
        s.quiescent = true →
        (∀ c pre post, acts = pre ++ Action.register { ID := id, Conn := c } :: post →
          Action.close { ID := id, Conn := c } ∈ post) →
        lookup id s.Clients = none ∧
        ∀ msg data conn,
          process handler (.Request { ID := id, Msg := msg, Data := data, Conn := conn }) s =
            some s) := by
  constructor
  · intro ops
    obtain ⟨s, acts, hp, hr, hq, hlive⟩ := processAll_reaches handler ops
    refine ⟨s, hp, hq, ?_⟩
    intro hc
    have hi := inv_run handler acts s hr
    have hnl : ∀ c, live id c acts = false := by
      intro c
      rw [hlive id c]
      exact not_live_of_closed_ops id ops hc c
    have hl := unmapped_of_not_live handler acts s id hi hq hnl
    exact ⟨hl, fun msg data conn =>
      process_unmapped_request handler s _ ((quiescent_iff s).mp hq).1 hl⟩
  · intro acts s hr hq hc
    have hi := inv_run handler acts s hr
    have hl := unmapped_of_not_live handler acts s id hi hq (not_live_of_closed id acts hc)
    exact ⟨hl, fun msg data conn =>
      process_unmapped_request handler s _ ((quiescent_iff s).mp hq).1 hl⟩

/-- C2 on the scenario of the specification: connections 1 and 2 are registered
under `"u1"`, then 1 is closed, then 2; `"u1"` is not a key of the map. -/
theorem closed_group_is_unmapped_witness :
    ∃ s, processAll echoWithID
        [.Register { ID := "u1", Conn := 1 }, .Register { ID := "u1", Conn := 2 },
          .Close { ID := "u1", Conn := 1 }, .Close { ID := "u1", Conn := 2 }] NewMainHub =
          some s ∧
      lookup "u1" s.Clients = none := by
  obtain ⟨s, hs, _, himp⟩ := (closed_group_is_unmapped echoWithID "u1").1
    [.Register { ID := "u1", Conn := 1 }, .Register { ID := "u1", Conn := 2 },
      .Close { ID := "u1", Conn := 1 }, .Close { ID := "u1", Conn := 2 }]
  refine ⟨s, hs, (himp ?_).1⟩
  intro c pre post h
  rcases pre with _ | ⟨a, _ | ⟨b, _ | ⟨d, _ | ⟨e, pre⟩⟩⟩⟩ <;>
    simp only [List.nil_append, List.cons_append, List.cons.injEq, Op.Register.injEq,
      Conn.mk.injEq, true_and, and_false, false_and, reduceCtorEq] at h
  · obtain ⟨hc, hpost⟩ := h
    subst hc hpost
    simp
  · obtain ⟨_, hc, hpost⟩ := h
    subst hc hpost
    simp
  · exact absurd h.2.2.2.2 (by simp)

/-! ## A registration received while the hub sends its empty signal -/

theorem deadlocked_stuck (handler : Handler) (a : Action) :
    step handler a (deadlocked handler) = none := by
  cases a with
  | register c => rfl
  | request r => rfl
  | close c => rfl
  | forward => rfl
  | empty h => simp [step, deadlocked, emptying]
  | broadcast k => simp [step, deadlocked, emptying]

theorem run_of_stuck (handler : Handler) (s s2 : System) (acts : List Action)
    (hstuck : ∀ a, step handler a s = none) (hr : run handler acts s = some s2) :
    acts = [] ∧ s2 = s := by
  cases acts with
  | nil =>
    simp only [run, Option.some.injEq] at hr
    exact ⟨rfl, hr.symm⟩
  | cons a rest =>
    simp only [run, hstuck a, Option.none_bind] at hr
    exact absurd hr (by simp)

/-- C3 fails on the code: connection 1, the only one of `"u1"`, has closed and
the hub has handled the close, so the main hub is at its `select`, `"u1"` is
still mapped and the hub is blocked in `main.Empty <- client.ID`.  In this
reachable state the registration `("u1", 2)` is received by the main hub, but
it is never processed: the main hub blocks in the send to that hub, no
transition is enabled any more, and connection 2 never becomes a member. -/
theorem registration_blocks_on_emptying_hub (handler : Handler) :
    run handler
        [.register { ID := "u1", Conn := 1 }, .forward, .close { ID := "u1", Conn := 1 },
          .forward] NewMainHub = some (emptying handler) ∧
      (emptying handler).pc = .select ∧
      lookup "u1" (emptying handler).Clients = some 0 ∧
      step handler (.register { ID := "u1", Conn := 2 }) (emptying handler) =
        some (deadlocked handler) ∧
      process handler (.Register { ID := "u1", Conn := 2 }) (emptying handler) = none ∧
      ∀ (acts : List Action) (s2 : System), run handler acts (deadlocked handler) = some s2 →
        acts = [] ∧ s2.members "u1" = [] := by
  refine ⟨rfl, rfl, by simp [emptying, lookup], rfl, rfl, ?_⟩
  intro acts s2 hr
  obtain ⟨h1, h2⟩ := run_of_stuck handler _ s2 acts (deadlocked_stuck handler) hr
  subst h2
  exact ⟨h1, by simp [System.members, deadlocked, emptying, lookup]⟩

/-! ## A Handler that fails -/

theorem drain_appended (handler : Handler) (s : System) (p : HubPtr) (hub : ClientHub)
    (hr : s.ready p = some hub) (vs : List Value) (front : List (HubPtr × Value))
    (t : List Obs) :
    run handler (List.replicate vs.length (.broadcast front.length))
        { s with pending := front ++ vs.map (fun v => (p, v)), trace := t } =
      some { s with pending := front, trace := t ++ vs.flatMap (fanOut p hub.Connections) } := by
  induction vs generalizing t with
  | nil => simp [run]
  | cons v tl ih =>
    have hget : (front ++ (v :: tl).map (fun v => (p, v)))[front.length]? = some (p, v) := by
      rw [List.getElem?_append_right (Nat.le_refl _)]
      simp
    have hstep := step_broadcast_eq handler
      { s with pending := front ++ (v :: tl).map (fun v => (p, v)), trace := t }
      front.length p v hub hget hr
    simp only [List.length_cons, List.replicate_succ, run, hstep, Option.some_bind]
    have herase : (front ++ (v :: tl).map (fun v => (p, v))).eraseIdx front.length =
        front ++ tl.map (fun v => (p, v)) := by
      rw [List.eraseIdx_append_of_length_le (Nat.le_refl _)]
      simp
    rw [herase, ih (t ++ fanOut p hub.Connections v)]
    simp [List.flatMap_cons]

/-- C5, as amended: when the Handler returns the error `e` for a message
submitted to an existing group, handling the message calls the Handler once
and writes exactly one frame, the error frame `{"error": e}`, to the connection
the message came from: no other connection is written anything by it.  The
values the Handler passed to the broadcast function before failing are blocked
on the hub like those of any other call and are still fanned out: receiving
them writes each of them to every connection of the group (nothing when it
broadcast nothing).  The map, the hubs and their connections are unchanged, so
the group lives on, and the next message under the same identifier calls the
Handler exactly once again. -/
theorem handler_error_reported_to_origin (handler : Handler) (s : System) (r : request)
    (p : HubPtr) (hub : ClientHub) (e : String)
    (hpc : s.pc = .select) (hl : lookup r.ID s.Clients = some p)
    (hr : s.ready p = some hub)
    (herr : (hub.Handler { ID := r.ID, Msg := r.Msg, Data := r.Data }).err = some e) :
    ∃ s', process handler (.Request r) s = some s' ∧
      s'.trace = s.trace ++
        [Obs.call p { ID := r.ID, Msg := r.Msg, Data := r.Data },
          Obs.write p r.Conn (errorFrame e)] ∧
      writesTo r.Conn s'.trace = writesTo r.Conn s.trace ++ [errorFrame e] ∧
      (∀ c, c ≠ r.Conn → writesTo c s'.trace = writesTo c s.trace) ∧
      s'.pending = s.pending ++
        (hub.Handler { ID := r.ID, Msg := r.Msg, Data := r.Data }).broadcasts.map
          (fun v => (p, v)) ∧
      s'.Clients = s.Clients ∧ s'.hubs = s.hubs ∧ s'.pc = .select ∧
      (∃ s3, run handler
          (List.replicate
            (hub.Handler { ID := r.ID, Msg := r.Msg, Data := r.Data }).broadcasts.length
            (.broadcast s.pending.length)) s' = some s3 ∧
        s3.trace = s'.trace ++
          (hub.Handler { ID := r.ID, Msg := r.Msg, Data := r.Data }).broadcasts.flatMap
            (fanOut p hub.Connections) ∧
        s3.pending = s.pending ∧ s3.hubs = s.hubs ∧ s3.Clients = s.Clients) ∧
      ∀ r2 : request, r2.ID = r.ID →
        ∃ s2, process handler (.Request r2) s' = some s2 ∧
          calls s2.trace =
            calls s'.trace ++ [{ ID := r2.ID, Msg := r2.Msg, Data := r2.Data }] := by
  have htrace : s.trace ++ Obs.call p (hub.onRequest r).1 ::
      (hub.onRequest r).2.2.map (fun w => Obs.write p w.1 w.2) =
      s.trace ++ [Obs.call p { ID := r.ID, Msg := r.Msg, Data := r.Data },
        Obs.write p r.Conn (errorFrame e)] := by
    simp only [onRequest_fst, onRequest_writes, herr]
    simp
  refine ⟨_, process_request_mapped handler s r p hub hpc hl hr, htrace, ?_, ?_, ?_, rfl, rfl,
    hpc, ?_, ?_⟩
  · show writesTo r.Conn (s.trace ++ _) = _
    rw [htrace, writesTo_append]
    simp [writesTo]
  · intro c hc
    show writesTo c (s.trace ++ _) = _
    rw [htrace, writesTo_append]
    have hne : ¬ r.Conn = c := fun h => hc h.symm
    simp [writesTo, hne]
  · simp only [onRequest_broadcasts]
  · refine ⟨{ s with
      pending := s.pending
      trace := (s.trace ++ Obs.call p (hub.onRequest r).1 ::
          (hub.onRequest r).2.2.map (fun w => Obs.write p w.1 w.2)) ++
        (hub.Handler { ID := r.ID, Msg := r.Msg, Data := r.Data }).broadcasts.flatMap
          (fanOut p hub.Connections) }, ?_, rfl, rfl, rfl, rfl⟩
    have hd := drain_appended handler s p hub hr
      (hub.Handler { ID := r.ID, Msg := r.Msg, Data := r.Data }).broadcasts s.pending
      (s.trace ++ Obs.call p (hub.onRequest r).1 ::
        (hub.onRequest r).2.2.map (fun w => Obs.write p w.1 w.2))
    simp only [onRequest_broadcasts]
    exact hd
  · intro r2 hid
    refine ⟨_, process_request_mapped handler _ r2 p hub hpc (by rw [hid]; exact hl) hr, ?_⟩
    simp only [onRequest_fst]
    rw [calls_append]
    simp [calls, calls_writes]

/-- C5 on the group `"u1"` of connections 1 and 2 with a Handler that
broadcasts `"partial"` and then fails with `"boom"`, for a message of
connection 1: handling it writes the error frame to connection 1 and nothing
to connection 2; the broadcast is then fanned out to both, and both are still
members. -/
theorem handler_error_reported_to_origin_witness :
    run broadcastThenFail (registerAll "u1" [1, 2]) NewMainHub = some failingPair ∧
      (broadcastThenFail { ID := "u1", Msg := [], Data := .nil }).err = some "boom" ∧
      ∃ s' s3,
        process broadcastThenFail (.Request { ID := "u1", Msg := [], Data := .nil, Conn := 1 })
          failingPair = some s' ∧
        writesTo 1 s'.trace = [errorFrame "boom"] ∧
        writesTo 2 s'.trace = [] ∧
        run broadcastThenFail [.broadcast 0] s' = some s3 ∧
        writesTo 1 s3.trace = [errorFrame "boom", .str "partial"] ∧
        writesTo 2 s3.trace = [.str "partial"] ∧
        s3.members "u1" = [1, 2] := by
  refine ⟨rfl, rfl, ?_⟩
  obtain ⟨s', hproc, htrace, horigin, hother, _, _, _, _, ⟨s3, hrun3, ht3, _, hh3, hc3⟩, _⟩ :=
    handler_error_reported_to_origin broadcastThenFail failingPair
      { ID := "u1", Msg := [], Data := .nil, Conn := 1 } 0
      { ID := "u1", Connections := [1, 2], Handler := broadcastThenFail, sendingEmpty := false }
      "boom" rfl (by decide) rfl rfl
  refine ⟨s', s3, hproc, horigin, hother 2 (by decide), hrun3, ?_, ?_, ?_⟩
  · rw [ht3, htrace]
    decide
  · rw [ht3, htrace]
    decide
  · simp only [System.members, hc3, hh3]
    decide

/-! ## The connection loop -/

/-- C8 fails on the code: connection 2 registers under `"u1"` while the hub of
`"u1"` is blocked in `main.Empty <- client.ID`, and its first read fails.  The
registration is received, the loop leaves the `for` loop and enters the
deferred function; there it is blocked in `main.Close <- con` for ever: no move
of the loop or of the hubs is enabled, so the close is never received and the
connection is never released. -/
theorem close_blocks_on_stuck_main_hub (handler : Handler) :
    run handler
        [.register { ID := "u1", Conn := 1 }, .forward, .close { ID := "u1", Conn := 1 },
          .forward] NewMainHub = some (emptying handler) ∧
      play handler [.loop, .loop]
          (NewReader (localsOf (.str "u1") .nil) 2 [.err "EOF"], emptying handler) =
        some (closingReader, deadlocked handler) ∧
      (∀ m, move handler m (closingReader, deadlocked handler) = none) ∧
      ∀ (moves : List Move) (r : Reader) (s' : System),
        play handler moves (closingReader, deadlocked handler) = some (r, s') →
        r.pc = .close ∧ Effect.sendClose { ID := "u1", Conn := 2 } ∉ r.log ∧
          Effect.release 2 ∉ r.log := by
  have hstuck : ∀ m, move handler m (closingReader, deadlocked handler) = none := by
    intro m
    cases m with
    | loop => rfl
    | other a => simp [move, deadlocked_stuck handler a]
  refine ⟨rfl, rfl, hstuck, ?_⟩
  intro moves r s' hp
  cases moves with
  | nil =>
    simp only [play, Option.some.injEq, Prod.mk.injEq] at hp
    obtain ⟨h1, _⟩ := hp
    subst h1
    exact ⟨rfl, by decide, by decide⟩
  | cons m rest =>
    simp only [play, hstuck m, Option.none_bind] at hp
    exact absurd hp (by simp)

end Sockets
